import Mathlib

/-!
Verification of the linnix cognition daemon core against its specification.

This file gives a shallow embedding, in Lean 4, of the subsystems of the
repository that the checked claims are about:

* the enforcement queue and its safety guard
  (`src/cognitod/src/enforcement.rs`, `src/cognitod/src/enforcement/safety.rs`);
* the context store (`src/cognitod/src/context.rs`);
* the sequenced-ring consumer (`src/cognitod/src/runtime/sequencer.rs`);
* the PSI blame engine (`src/cognitod/src/collectors/psi.rs`);
* the circuit-breaker loop (`src/cognitod/src/main.rs`);
* the event-rate metrics (`src/cognitod/src/metrics.rs`).

Machine integers (`u32`, `u64`) are modelled as `Nat`; the code under
scrutiny never relies on wrap-around except for the `now - t` age
subtractions, which are modelled explicitly (`wsub64` below).  The ambient
clock (`SystemTime::now`, `Instant::now`, `clock_gettime`) is passed as an
explicit `now` argument.  Rust `f32`/`f64` arithmetic in the blame engine
and circuit breaker is modelled over `ℚ` (exact rational arithmetic); the
claims under test are about the formulas, comparisons and orderings, which
the rational model reflects faithfully.  Stateful methods become pure
functions from the old state to the new state together with the returned
value; `Result<T, String>` becomes `Except String T`.
-/

/-- `u64` wrapping subtraction `a - b` (Rust release-mode semantics for the
`now - t` age computations in `context.rs`). -/
def wsub64 (a b : Nat) : Nat := (a + 2 ^ 64 - b % 2 ^ 64) % 2 ^ 64

/-- On in-range operands with `b ≤ a`, wrapping subtraction is plain
subtraction. -/
theorem wsub64_eq_sub (a b : Nat) (hb : b ≤ a) (ha : a < 2 ^ 64) :
    wsub64 a b = a - b := by
  unfold wsub64
  rw [Nat.mod_eq_of_lt (Nat.lt_of_le_of_lt hb ha)]
  rw [show a + 2 ^ 64 - b = (a - b) + 2 ^ 64 by omega]
  rw [Nat.add_mod_right, Nat.mod_eq_of_lt (by omega)]

-- =========================================================================
-- Enforcement queue (`src/cognitod/src/enforcement.rs`)
-- =========================================================================

/-- `ActionType` from `enforcement.rs`: the tagged union of enforcement
operations. -/
inductive ActionType where
  | KillProcess (pid : Nat) (signal : Int)
  | FreezeProcess (pid : Nat)
  | UnfreezeProcess (pid : Nat)
  | ThrottleCgroup (cgroup_path : String) (quota_us : Nat) (period_us : Nat)
deriving DecidableEq, Repr

/-- `ActionStatus` from `enforcement.rs`. -/
inductive ActionStatus where
  | Pending
  | Approved
  | Rejected
  | Expired
  | Executed
deriving DecidableEq, Repr

/-- The `{:?}` (Debug) rendering of an `ActionStatus`, used in the
`"not pending: {:?}"` and `"not approved: {:?}"` error strings. -/
def ActionStatus.debugStr : ActionStatus → String
  | .Pending => "Pending"
  | .Approved => "Approved"
  | .Rejected => "Rejected"
  | .Expired => "Expired"
  | .Executed => "Executed"

/-- `EnforcementAction` from `enforcement.rs`.  `created_at`, `expires_at`
and `approved_at` are epoch seconds. -/
structure EnforcementAction where
  id : String
  action : ActionType
  reason : String
  source : String
  confidence : Option ℚ
  status : ActionStatus
  created_at : Nat
  expires_at : Nat
  approved_by : Option String
  approved_at : Option Nat
deriving DecidableEq, Repr

/-- `EnforcementQueue` from `enforcement.rs`.  The `actions` hash map is
modelled as an association list keyed by the action id (ids are unique by
construction, `"action-<n>"` for a strictly increasing counter). -/
structure EnforcementQueue where
  next_id : Nat
  actions : List (String × EnforcementAction)
  ttl_secs : Nat
deriving DecidableEq, Repr

/-- `EnforcementQueue::new`. -/
def EnforcementQueue.new (ttl_secs : Nat) : EnforcementQueue :=
  { next_id := 1, actions := [], ttl_secs := ttl_secs }

/-- `HashMap::get` on the modelled action map. -/
def findAction : List (String × EnforcementAction) → String → Option EnforcementAction
  | [], _ => none
  | (k, a) :: rest, id => if k = id then some a else findAction rest id

/-- In-place update of one entry of the modelled action map
(`HashMap::get_mut` followed by field mutation). -/
def updateAction (m : List (String × EnforcementAction)) (id : String)
    (f : EnforcementAction → EnforcementAction) : List (String × EnforcementAction) :=
  m.map fun p => if p.1 = id then (p.1, f p.2) else p

-- =========================================================================
-- Safety guard (`src/cognitod/src/enforcement/safety.rs`)
-- =========================================================================

/-- `CRITICAL_NAMES` from `safety.rs`. -/
def CRITICAL_NAMES : List String :=
  ["systemd", "init", "sshd", "auditd", "cognitod", "containerd", "dockerd"]

/-- `CRITICAL_CGROUPS` from `safety.rs`. -/
def CRITICAL_CGROUPS : List String :=
  ["/system.slice", "/init.scope", "/user.slice",
   "kubepods/besteffort/kube-system", "kubepods/burstable/kube-system"]

/-- Rust `str::contains` (substring test), on the character lists of the
two strings. -/
def strContainsSub (hay pat : String) : Bool :=
  decide (List.IsInfix pat.toList hay.toList)

/-- Rust `str::to_lowercase` restricted to per-character lowering (the
process names involved are ASCII). -/
def strLower (s : String) : String := String.map Char.toLower s

/-- The live OS view consulted by the safety guard: the name and parent pid
that `sysinfo` reports for a given pid, when the process exists. -/
structure OsProcInfo where
  name : String
  parent : Option Nat
deriving DecidableEq, Repr

/-- The ambient OS state for one call into the safety guard: the daemon's
own pid (`std::process::id()`) and the refreshed process table. -/
structure OsEnv where
  my_pid : Nat
  procs : Nat → Option OsProcInfo

/-- `SafetyGuard::is_safe_to_kill` from `safety.rs`. -/
def is_safe_to_kill (env : OsEnv) (pid : Nat) : Except String Unit :=
  if pid ≤ 1 then
    .error ("pid " ++ toString pid ++ " is init/systemd")
  else if pid = env.my_pid then
    .error "cannot kill self"
  else
    match env.procs pid with
    | some p =>
        let name := strLower p.name
        match CRITICAL_NAMES.find? (fun c => strContainsSub name c) with
        | some _ => .error ("process " ++ name ++ " is critical")
        | none =>
            if p.parent = some env.my_pid then
              .error "cannot kill own child"
            else
              .ok ()
    | none => .ok ()

/-- `SafetyGuard::is_safe_cgroup` from `safety.rs`. -/
def is_safe_cgroup (cgroup_path : String) : Except String Unit :=
  match CRITICAL_CGROUPS.find? (fun c => strContainsSub cgroup_path c) with
  | some c => .error ("cgroup " ++ cgroup_path ++ " is critical, matches " ++ c)
  | none => .ok ()

/-- The safety-check dispatch at the head of
`EnforcementQueue::propose_internal`. -/
def guardCheck (env : OsEnv) : ActionType → Except String Unit
  | .KillProcess pid _ => is_safe_to_kill env pid
  | .FreezeProcess pid => is_safe_to_kill env pid
  | .UnfreezeProcess _ => .ok ()
  | .ThrottleCgroup path _ _ => is_safe_cgroup path

/-- `EnforcementQueue::propose_internal`.  Returns the new queue and the
`Result<String, String>` value. -/
def propose_internal (q : EnforcementQueue) (env : OsEnv) (now : Nat)
    (action : ActionType) (reason source : String) (confidence : Option ℚ)
    (auto_approve : Bool) : EnforcementQueue × Except String String :=
  match guardCheck env action with
  | .error e => (q, .error e)
  | .ok _ =>
      let id := "action-" ++ toString q.next_id
      let stat : ActionStatus × Option String × Option Nat :=
        if auto_approve then (.Approved, some "circuit_breaker", some now)
        else (.Pending, none, none)
      let a : EnforcementAction :=
        { id := id, action := action, reason := reason, source := source,
          confidence := confidence, status := stat.1, created_at := now,
          expires_at := now + q.ttl_secs, approved_by := stat.2.1,
          approved_at := stat.2.2 }
      ({ q with next_id := q.next_id + 1, actions := (id, a) :: q.actions },
       .ok id)

/-- `EnforcementQueue::propose`. -/
def propose (q : EnforcementQueue) (env : OsEnv) (now : Nat)
    (action : ActionType) (reason source : String) (confidence : Option ℚ) :
    EnforcementQueue × Except String String :=
  propose_internal q env now action reason source confidence false

/-- `EnforcementQueue::propose_auto`. -/
def propose_auto (q : EnforcementQueue) (env : OsEnv) (now : Nat)
    (action : ActionType) (reason source : String) (confidence : Option ℚ)
    (auto_approve : Bool) : EnforcementQueue × Except String String :=
  propose_internal q env now action reason source confidence auto_approve

/-- `EnforcementQueue::approve`. -/
def approveQ (q : EnforcementQueue) (now : Nat) (id : String)
    (approver : String) : EnforcementQueue × Except String EnforcementAction :=
  match findAction q.actions id with
  | none => (q, .error "action not found")
  | some a =>
      if a.status ≠ ActionStatus.Pending then
        (q, .error ("not pending: " ++ a.status.debugStr))
      else if now > a.expires_at then
        let acts := updateAction q.actions id (fun b => { b with status := .Expired })
        ({ q with actions := acts }, .error "expired")
      else
        let a2 : EnforcementAction :=
          { a with status := .Approved, approved_by := some approver,
                   approved_at := some now }
        ({ q with actions := updateAction q.actions id (fun _ => a2) }, .ok a2)

/-- `EnforcementQueue::reject`. -/
def rejectQ (q : EnforcementQueue) (id : String) (_rejector : String) :
    EnforcementQueue × Except String Unit :=
  match findAction q.actions id with
  | none => (q, .error "action not found")
  | some a =>
      if a.status ≠ ActionStatus.Pending then
        (q, .error ("not pending: " ++ a.status.debugStr))
      else
        let acts := updateAction q.actions id (fun b => { b with status := .Rejected })
        ({ q with actions := acts }, .ok ())

/-- `EnforcementQueue::complete`. -/
def completeQ (q : EnforcementQueue) (id : String) :
    EnforcementQueue × Except String Unit :=
  match findAction q.actions id with
  | none => (q, .error "action not found")
  | some a =>
      if a.status ≠ ActionStatus.Approved then
        (q, .error ("not approved: " ++ a.status.debugStr))
      else
        let acts := updateAction q.actions id (fun b => { b with status := .Executed })
        ({ q with actions := acts }, .ok ())

/-- The transition relation the specification allows on action statuses:
stay put, `Pending → Approved/Rejected/Expired`, or `Approved → Executed`.
Written from the specification text, to be compared with the embedded
queue operations. -/
def allowedTransition (s t : ActionStatus) : Prop :=
  s = t ∨
  (s = .Pending ∧ (t = .Approved ∨ t = .Rejected ∨ t = .Expired)) ∨
  (s = .Approved ∧ t = .Executed)

-- =========================================================================
-- Process events (`linnix-ai-ebpf-common/src/lib.rs`)
-- =========================================================================

/-- `PERCENT_MILLI_UNKNOWN` sentinel (`u16::MAX`). -/
def PERCENT_MILLI_UNKNOWN : Nat := 65535

/-- `ProcessEvent` from `linnix-ai-ebpf-common/src/lib.rs` (the 96-byte wire
record).  `comm` is modelled as a `String`. -/
structure ProcessEvent where
  pid : Nat
  ppid : Nat
  uid : Nat
  gid : Nat
  event_type : Nat
  ts_ns : Nat
  seq : Nat
  comm : String
  exit_time_ns : Nat
  cpu_pct_milli : Nat
  mem_pct_milli : Nat
  data : Nat
  data2 : Nat
  aux : Nat
  aux2 : Nat
deriving DecidableEq, Repr

/-- `ProcessEventExt::exit_time`: `None` encodes `exit_time_ns == 0`. -/
def ProcessEvent.exit_time (e : ProcessEvent) : Option Nat :=
  if e.exit_time_ns = 0 then none else some e.exit_time_ns

/-- `ProcessEventExt::set_exit_time`. -/
def ProcessEvent.set_exit_time (e : ProcessEvent) (v : Option Nat) : ProcessEvent :=
  { e with exit_time_ns := v.getD 0 }

/-- Sample event shaped like the repository's own test fixture
(`sample_event` in `context.rs`), with an explicit `ts_ns`. -/
def mkEvent (pid ppid etype ts : Nat) : ProcessEvent :=
  { pid := pid, ppid := ppid, uid := 0, gid := 0, event_type := etype,
    ts_ns := ts, seq := 0, comm := "test", exit_time_ns := 0,
    cpu_pct_milli := PERCENT_MILLI_UNKNOWN, mem_pct_milli := PERCENT_MILLI_UNKNOWN,
    data := 0, data2 := 0, aux := 0, aux2 := 0 }

-- =========================================================================
-- Context store (`src/cognitod/src/context.rs`)
-- =========================================================================

/-- `HashMap::insert` on a pid-keyed association list: replace the entry
when the key exists, else add it. -/
def assocInsert (m : List (Nat × ProcessEvent)) (k : Nat) (v : ProcessEvent) :
    List (Nat × ProcessEvent) :=
  if m.any (fun p => p.1 = k) then
    m.map (fun p => if p.1 = k then (k, v) else p)
  else
    (k, v) :: m

/-- `HashMap::entry(..).or_insert_with(..)`: insert only when absent. -/
def assocOrInsert (m : List (Nat × ProcessEvent)) (k : Nat) (v : ProcessEvent) :
    List (Nat × ProcessEvent) :=
  if m.any (fun p => p.1 = k) then m else (k, v) :: m

/-- `HashMap::get` on the live map. -/
def findLive : List (Nat × ProcessEvent) → Nat → Option ProcessEvent
  | [], _ => none
  | (k, e) :: rest, pid => if k = pid then some e else findLive rest pid

/-- `ContextStore` from `context.rs`, in the configuration the claims are
about (`k8s_ctx = None`, so the metadata component of history and live
entries is uniformly absent and is omitted).  `history` is the `VecDeque`
with its front at the head of the list. -/
structure ContextStore where
  history : List (Nat × ProcessEvent)
  live : List (Nat × ProcessEvent)
  max_age_ns : Nat
  max_len : Nat
  seq : Nat
deriving DecidableEq, Repr

/-- `ContextStore::new`. -/
def ContextStore.new (max_age_ns max_len : Nat) : ContextStore :=
  { history := [], live := [], max_age_ns := max_age_ns, max_len := max_len,
    seq := 1 }

/-- The front loop of `ContextStore::prune_locked`: pop entries from the
front while the front is an Exit entry whose `exit_time` is more than
`max_age` before `now`. -/
def pruneAge (now max_age_ns : Nat) : List (Nat × ProcessEvent) → List (Nat × ProcessEvent)
  | [] => []
  | (t, e) :: rest =>
      if e.event_type = 2 ∧ e.exit_time_ns ≠ 0 ∧ wsub64 now e.exit_time_ns > max_age_ns
      then pruneAge now max_age_ns rest
      else (t, e) :: rest

/-- The length loop of `ContextStore::prune_locked`: pop from the front
while the queue is longer than `max_len` (an empty queue is never longer
than `max_len`, so the loop exits at once on it). -/
def pruneLen : List (Nat × ProcessEvent) → Nat → List (Nat × ProcessEvent)
  | [], _ => []
  | a :: l, max_len =>
      if (a :: l).length > max_len then pruneLen l max_len else a :: l

/-- `ContextStore::prune_locked`. -/
def prune_locked (q : List (Nat × ProcessEvent)) (now max_age_ns max_len : Nat) :
    List (Nat × ProcessEvent) :=
  pruneLen (pruneAge now max_age_ns q) max_len

/-- The Exit timestamp rewrite in `ContextStore::add`: when the incoming
event is an Exit and the pid is live, move the original `ts_ns` into
`exit_time_ns` and take `ts_ns` from the stored start event. -/
def fixExitTimestamps (live : List (Nat × ProcessEvent)) (e : ProcessEvent) : ProcessEvent :=
  if e.event_type = 2 then
    match findLive live e.pid with
    | some p => { e with exit_time_ns := e.ts_ns, ts_ns := p.ts_ns }
    | none => e
  else e

/-- The live-map update of `ContextStore::add` (the `match event.event_type`
block), fed the already-rewritten event. -/
def liveUpdate (live : List (Nat × ProcessEvent)) (now : Nat) (e : ProcessEvent) :
    List (Nat × ProcessEvent) :=
  match e.event_type with
  | 0 => assocInsert live e.pid (e.set_exit_time none)
  | 1 => assocOrInsert live e.pid (e.set_exit_time none)
  | 2 =>
      match findLive live e.pid with
      | some p => assocInsert live e.pid { p with exit_time_ns := now, event_type := 2 }
      | none => assocInsert live e.pid (e.set_exit_time (some now))
  | _ => live

/-- The `live.retain(..)` pass of `ContextStore::add`: evict Exit entries
whose (wall-clock) `exit_time` is at least one `max_age` window old
(`now.saturating_sub(t) < max_age`, with `saturating_sub` as `Nat`
subtraction). -/
def liveRetain (live : List (Nat × ProcessEvent)) (now max_age_ns : Nat) :
    List (Nat × ProcessEvent) :=
  live.filter fun p =>
    decide (p.2.event_type ≠ 2 ∨ p.2.exit_time_ns = 0 ∨ now - p.2.exit_time_ns < max_age_ns)

/-- `ContextStore::add` in the `k8s_ctx = None` configuration: rewrite Exit
timestamps from the live map, push to history and prune, update the live
map, evict stale Exit entries, and stamp the store-local sequence counter
(the broadcast itself is external). -/
def ContextStore.add (s : ContextStore) (now : Nat) (event : ProcessEvent) : ContextStore :=
  let ev := fixExitTimestamps s.live event
  let hist := prune_locked (s.history ++ [(now, ev)]) now s.max_age_ns s.max_len
  let lv := liveRetain (liveUpdate s.live now ev) now s.max_age_ns
  { s with history := hist, live := lv, seq := s.seq + 1 }

/-- `ContextStore::get_recent`: history entries captured within `max_age`
of `now`. -/
def ContextStore.get_recent (s : ContextStore) (now : Nat) : List ProcessEvent :=
  (s.history.filter fun te => decide (wsub64 now te.1 ≤ s.max_age_ns)).map (fun te => te.2)

-- =========================================================================
-- Metrics rate cap (`src/cognitod/src/metrics.rs`)
-- =========================================================================

/-- The per-second counters of `Metrics` that `record_event` touches.
`drops_by_type` is the 8-slot drop counter array, modelled as a function
from slot index. -/
structure Metrics where
  events_total : Nat
  events_this_sec : Nat
  dropped_events_total : Nat
  rate_limited_events : Nat
  drops_by_type : Nat → Nat

/-- `Metrics::new` (counter fields only). -/
def Metrics.new : Metrics :=
  { events_total := 0, events_this_sec := 0, dropped_events_total := 0,
    rate_limited_events := 0, drops_by_type := fun _ => 0 }

/-- `Metrics::event_index`: clamp the event type into the 8 drop slots. -/
def event_index (event_type : Nat) : Nat := min event_type 7

/-- `Metrics::record_drop`. -/
def record_drop (m : Metrics) (event_type : Nat) : Metrics :=
  { m with
    drops_by_type := fun i =>
      if i = event_index event_type then m.drops_by_type i + 1 else m.drops_by_type i,
    dropped_events_total := m.dropped_events_total + 1,
    rate_limited_events := m.rate_limited_events + 1 }

/-- `Metrics::record_event`: bump the running per-second count, then apply
the cap with the 1-in-10 sampling reserve for critical events
(`event_type ≤ 2`).  Returns the new counters and the keep/drop verdict. -/
def record_event (m : Metrics) (cap : Nat) (event_type : Nat) : Metrics × Bool :=
  let count := m.events_this_sec + 1
  let m1 := { m with events_this_sec := count, events_total := m.events_total + 1 }
  if cap > 0 ∧ count > cap then
    if event_type > 2 then (record_drop m1 event_type, false)
    else if count % 10 ≠ 0 then (record_drop m1 event_type, false)
    else (m1, true)
  else (m1, true)

-- =========================================================================
-- Sequenced-ring consumer (`src/cognitod/src/runtime/sequencer.rs`)
-- =========================================================================

/-- `SEQUENCER_RING_SIZE` (2²⁰ slots); `cursor & SEQUENCER_RING_MASK` is
`cursor % ringSize`. -/
def ringSize : Nat := 1024 * 1024

/-- `SequencedSlot` from `linnix-ai-ebpf-common`: state flag
(EMPTY=0 / WRITING=1 / READY=2 / ABANDONED=3), ticket, reservation
timestamp and the event payload. -/
structure SequencedSlot where
  flags : Nat
  ticket_id : Nat
  reserved_at_ns : Nat
  event : ProcessEvent
deriving DecidableEq, Repr

/-- `OrderingValidator` from `sequencer.rs`. -/
structure OrderingValidator where
  last_ticket : Option Nat
  violations : Nat
deriving DecidableEq, Repr

/-- `OrderingValidator::check`: strict `last + 1` succession; on a gap,
count a violation, resync `last_ticket`, and report failure. -/
def OrderingValidator.check (v : OrderingValidator) (ticket : Nat) :
    OrderingValidator × Bool :=
  match v.last_ticket with
  | some last =>
      if ticket ≠ last + 1 then
        ({ last_ticket := some ticket, violations := v.violations + 1 }, false)
      else
        ({ v with last_ticket := some ticket }, true)
  | none => ({ v with last_ticket := some ticket }, true)

/-- `SequencerStats` from `sequencer.rs`. -/
structure SequencerStats where
  events_processed : Nat
  events_reaped : Nat
  events_abandoned : Nat
  poll_cycles : Nat
  max_batch_size : Nat
  ordering_violations : Nat
deriving DecidableEq, Repr

/-- `SequencerConsumer`: the mmapped ring (a read-only view, indexed by
slot offset), the local cursor, the validator, the statistics and the
reaper timeout. -/
structure SequencerConsumer where
  ring : Nat → SequencedSlot
  cursor : Nat
  validator : OrderingValidator
  stats : SequencerStats
  reaper_timeout_ns : Nat

/-- The body of the `for _ in 0..max_batch_size` loop of
`SequencerConsumer::poll_batch`; `fuel` is the remaining iteration budget
and a `break` returns the events collected so far. -/
def pollLoop (now : Nat) : Nat → SequencerConsumer → List ProcessEvent × SequencerConsumer
  | 0, c => ([], c)
  | fuel + 1, c =>
      let slot := c.ring (c.cursor % ringSize)
      if slot.flags = 2 then
        if slot.ticket_id = c.cursor then
          let vc := c.validator.check slot.ticket_id
          let st1 := if vc.2 then c.stats
                     else { c.stats with ordering_violations := c.stats.ordering_violations + 1 }
          let c2 : SequencerConsumer :=
            { c with validator := vc.1,
                     cursor := c.cursor + 1,
                     stats := { st1 with events_processed := st1.events_processed + 1 } }
          let r := pollLoop now fuel c2
          (slot.event :: r.1, r.2)
        else if slot.ticket_id < c.cursor then
          ([], c)
        else
          let c2 : SequencerConsumer :=
            { c with cursor := slot.ticket_id,
                     stats := { c.stats with
                       ordering_violations := c.stats.ordering_violations + 1 } }
          pollLoop now fuel c2
      else if slot.flags = 1 then
        if slot.ticket_id = c.cursor then
          if slot.reserved_at_ns = 0 then
            ([], c)
          else if now - slot.reserved_at_ns > c.reaper_timeout_ns then
            let c2 : SequencerConsumer :=
              { c with cursor := c.cursor + 1,
                       stats := { c.stats with
                         events_reaped := c.stats.events_reaped + 1 } }
            pollLoop now fuel c2
          else
            ([], c)
        else
          ([], c)
      else if slot.flags = 0 then
        ([], c)
      else if slot.flags = 3 then
        let c2 : SequencerConsumer :=
          { c with cursor := c.cursor + 1,
                   stats := { c.stats with
                     events_abandoned := c.stats.events_abandoned + 1 } }
        pollLoop now fuel c2
      else
        ([], c)

/-- `SequencerConsumer::poll_batch`: bump `poll_cycles`, run the slot loop,
and refresh `max_batch_size`. -/
def poll_batch (c : SequencerConsumer) (now max_batch_size : Nat) :
    List ProcessEvent × SequencerConsumer :=
  let c0 : SequencerConsumer :=
    { c with stats := { c.stats with poll_cycles := c.stats.poll_cycles + 1 } }
  let r := pollLoop now max_batch_size c0
  if r.1.length > r.2.stats.max_batch_size then
    (r.1, { r.2 with stats := { r.2.stats with max_batch_size := r.1.length } })
  else
    r

-- =========================================================================
-- PSI blame engine (`src/cognitod/src/collectors/psi.rs`)
-- =========================================================================

/-- `CpuConsumer` from `psi.rs` (`nspace` models the Rust field
`namespace`, a Lean keyword). -/
structure CpuConsumer where
  pod : String
  nspace : String
  cpu_percent : ℚ
deriving DecidableEq, Repr

/-- `StallEvent` from `psi.rs`; the two count hash maps are association
lists with pairwise-distinct keys. -/
structure StallEvent where
  victim_pod : String
  victim_namespace : String
  stall_delta_us : Nat
  concurrent_consumers : List CpuConsumer
  fork_counts : List (String × Nat)
  short_job_counts : List (String × Nat)
deriving DecidableEq, Repr

/-- `BlameAttribution` from `psi.rs`. -/
structure BlameAttribution where
  victim_pod : String
  victim_namespace : String
  offender_pod : String
  offender_namespace : String
  blame_score : ℚ
  stall_us : Nat
  timestamp : Nat
  cpu_share : ℚ
  fork_count : Nat
  short_job_count : Nat
deriving DecidableEq, Repr

/-- Rust `str::split_once('/')` on a character list: split at the first
occurrence of the separator. -/
def splitOnceChar (c : Char) : List Char → Option (List Char × List Char)
  | [] => none
  | x :: xs =>
      if x = c then some ([], xs)
      else (splitOnceChar c xs).map (fun p => (x :: p.1, p.2))

/-- Rust `str::split_once('/')`. -/
def splitOnceSlash (s : String) : Option (String × String) :=
  (splitOnceChar '/' s.toList).map (fun p => (String.mk p.1, String.mk p.2))

/-- `HashMap::insert` on the offender map (`key → (namespace, pod)`):
overwrite the value when the key exists, else record the key.  New keys
are appended so the model tracks first-insertion order. -/
def upsertOffender (m : List (String × String × String)) (k : String)
    (v : String × String) : List (String × String × String) :=
  if m.any (fun p => p.1 = k) then
    m.map (fun p => if p.1 = k then (k, v) else p)
  else
    m ++ [(k, v)]

/-- The offender-collection phase of
`PsiMonitor::calculate_blame_attributions`: consumers first, then fork
keys, then short-job keys, each split as `namespace/pod`. -/
def buildOffenders (ev : StallEvent) : List (String × String × String) :=
  let m0 := ev.concurrent_consumers.foldl
    (fun m c => upsertOffender m (c.nspace ++ "/" ++ c.pod) (c.nspace, c.pod)) []
  let m1 := ev.fork_counts.foldl
    (fun m kv =>
      match splitOnceSlash kv.1 with
      | some v => upsertOffender m kv.1 v
      | none => m) m0
  ev.short_job_counts.foldl
    (fun m kv =>
      match splitOnceSlash kv.1 with
      | some v => upsertOffender m kv.1 v
      | none => m) m1

/-- `HashMap::get(key).unwrap_or(&0)` on a count map. -/
def lookupCount : List (String × Nat) → String → Nat
  | [], _ => 0
  | (k, n) :: rest, key => if k = key then n else lookupCount rest key

/-- The per-offender body of the attribution loop in
`calculate_blame_attributions` (float arithmetic modelled over `ℚ`). -/
def blameEntry (ev : StallEvent) (now : Nat) (total_cpu : ℚ)
    (key : String) (v : String × String) : BlameAttribution :=
  let cpu_percent : ℚ :=
    ((ev.concurrent_consumers.find?
        (fun c => c.nspace = v.1 ∧ c.pod = v.2)).map (fun c => c.cpu_percent)).getD 0
  let cpu_share : ℚ := if total_cpu > 0 then cpu_percent / total_cpu else 0
  let fork_count := lookupCount ev.fork_counts key
  let short_job_count := lookupCount ev.short_job_counts key
  let fork_score : ℚ := min ((fork_count : ℚ) / 100) 1
  let short_job_score : ℚ := min ((short_job_count : ℚ) / 50) 1
  let raw_score := cpu_share + fork_score + short_job_score
  let blame_score := raw_score * ((ev.stall_delta_us : ℚ) / 1000000)
  { victim_pod := ev.victim_pod, victim_namespace := ev.victim_namespace,
    offender_pod := v.2, offender_namespace := v.1,
    blame_score := blame_score, stall_us := ev.stall_delta_us,
    timestamp := now, cpu_share := cpu_share,
    fork_count := fork_count, short_job_count := short_job_count }

/-- Stable descending insertion by `blame_score` (the effect of
`sort_by(|a, b| b.blame_score.partial_cmp(&a.blame_score))`, a stable
descending sort). -/
def insertByBlame (a : BlameAttribution) : List BlameAttribution → List BlameAttribution
  | [] => [a]
  | b :: rest =>
      if b.blame_score > a.blame_score then b :: insertByBlame a rest
      else a :: b :: rest

/-- Stable descending sort by `blame_score`. -/
def sortByBlame (l : List BlameAttribution) : List BlameAttribution :=
  l.foldr insertByBlame []

/-- `PsiMonitor::calculate_blame_attributions`: offender union, per-offender
scores, omission of zero blame, and the final descending sort. -/
def calculate_blame_attributions (ev : StallEvent) (now : Nat) : List BlameAttribution :=
  let total_cpu : ℚ := (ev.concurrent_consumers.map (fun c => c.cpu_percent)).sum
  let attrs := (buildOffenders ev).filterMap fun kv =>
    let a := blameEntry ev now total_cpu kv.1 kv.2
    if a.blame_score > 0 then some a else none
  sortByBlame attrs

-- =========================================================================
-- Circuit breaker (`src/cognitod/src/main.rs`, the breaker task)
-- =========================================================================

/-- The circuit-breaker configuration fields the loop reads
(`CircuitBreakerConfig` plus the strategy fields referenced by
`main.rs`).  Thresholds are `ℚ` (modelling `f32`), times are seconds. -/
structure CbConfig where
  cpu_usage_threshold : ℚ
  cpu_psi_threshold : ℚ
  grace_period_secs : Nat
  require_human_approval : Bool
  mode : String
  escalation_strategy : String
  psi_panic_threshold : ℚ
  freeze_duration_secs : Nat
deriving DecidableEq, Repr

/-- The part of `SystemSnapshot` the CPU path of the breaker reads. -/
structure CbSnapshot where
  cpu_percent : ℚ
  psi_cpu_some_avg10 : ℚ
deriving DecidableEq, Repr

/-- One entry of a `top_cpu_processes` answer. -/
structure TopProc where
  pid : Nat
  comm : String
deriving DecidableEq, Repr

/-- The loop-local state of the breaker task: `breach_started_at` and the
`frozen_processes` list (`(pid, comm, frozen_at)`). -/
structure CbState where
  breach_started_at : Option Nat
  frozen : List (Nat × String × Nat)
deriving DecidableEq, Repr

/-- One iteration of the circuit-breaker loop (CPU path).  Inputs are the
tick time (seconds), the current snapshot, and the two top-CPU answers
(`top_cpu_processes(1)` from the live map, then the system-wide fallback).
Returns the new state, the proposal submitted this tick (action together
with the `auto_approve` argument of `propose_auto`), and the pids
unfrozen on pressure normalization. -/
def cbTick (cfg : CbConfig) (st : CbState) (now : Nat) (snap : CbSnapshot)
    (liveTop syswTop : List TopProc) :
    CbState × Option (ActionType × Bool) × List Nat :=
  let is_breaching := snap.cpu_percent > cfg.cpu_usage_threshold ∧
                      snap.psi_cpu_some_avg10 > cfg.cpu_psi_threshold
  if is_breaching then
    match st.breach_started_at with
    | none => ({ st with breach_started_at := some now }, none, [])
    | some t0 =>
        let duration := now - t0
        if duration ≥ cfg.grace_period_secs then
          let tops := if liveTop.isEmpty then syswTop else liveTop
          match tops.head? with
          | none => ({ st with breach_started_at := none }, none, [])
          | some proc =>
              let is_panic := snap.psi_cpu_some_avg10 ≥ cfg.psi_panic_threshold
              let use_freeze := cfg.escalation_strategy = "freeze_first" ∧ ¬ is_panic
              let already := st.frozen.find?
                (fun f => f.1 = proc.pid ∧ now - f.2.2 ≥ cfg.freeze_duration_secs)
              let af : ActionType × List (Nat × String × Nat) :=
                if use_freeze ∧ already = none then
                  (ActionType.FreezeProcess proc.pid, st.frozen ++ [(proc.pid, proc.comm, now)])
                else
                  (ActionType.KillProcess proc.pid 9, st.frozen.filter (fun f => f.1 ≠ proc.pid))
              let auto := if cfg.mode = "monitor" then false
                          else ! cfg.require_human_approval
              ({ breach_started_at := none, frozen := af.2 }, some (af.1, auto), [])
        else
          (st, none, [])
  else
    ({ breach_started_at := none, frozen := [] }, none, st.frozen.map (fun f => f.1))

/-- One scripted input to the breaker loop. -/
structure CbInput where
  now : Nat
  snap : CbSnapshot
  liveTop : List TopProc
  syswTop : List TopProc
deriving DecidableEq, Repr

/-- Run the breaker over a script of ticks, collecting each tick's
proposal. -/
def cbRun (cfg : CbConfig) : CbState → List CbInput →
    CbState × List (Option (ActionType × Bool))
  | st, [] => (st, [])
  | st, i :: rest =>
      let r := cbTick cfg st i.now i.snap i.liveTop i.syswTop
      let r2 := cbRun cfg r.1 rest
      (r2.1, r.2.1 :: r2.2)

-- =========================================================================
-- Helper lemmas: action-map updates and queue-operation unfoldings
-- =========================================================================

/-- Status replacement (the field mutation performed by the lifecycle
operations). -/
def setStatus (st : ActionStatus) (b : EnforcementAction) : EnforcementAction :=
  { b with status := st }

/-- The field mutation performed by a successful `approve`. -/
def approveFields (approver : String) (now : Nat) (a : EnforcementAction) :
    EnforcementAction :=
  { a with status := .Approved, approved_by := some approver, approved_at := some now }

/-- Looking up the updated id returns the updated value. -/
theorem findAction_updateAction_self (m : List (String × EnforcementAction))
    (id : String) (f : EnforcementAction → EnforcementAction) :
    findAction (updateAction m id f) id = (findAction m id).map f := by
  induction m with
  | nil => rfl
  | cons p rest ih =>
      obtain ⟨k0, a0⟩ := p
      simp only [updateAction, List.map_cons]
      by_cases h : k0 = id
      · rw [if_pos h]
        simp only [findAction, if_pos h]
        rfl
      · rw [if_neg h]
        simp only [findAction]
        rw [if_neg h, if_neg h]
        simpa only [updateAction] using ih

/-- Looking up a different id is unaffected by an update. -/
theorem findAction_updateAction_ne (m : List (String × EnforcementAction))
    (id k : String) (f : EnforcementAction → EnforcementAction) (h : k ≠ id) :
    findAction (updateAction m id f) k = findAction m k := by
  induction m with
  | nil => rfl
  | cons p rest ih =>
      obtain ⟨k0, a0⟩ := p
      simp only [updateAction, List.map_cons]
      by_cases hp : k0 = id
      · rw [if_pos hp]
        have hk : ¬ (k0 = k) := fun hh => h (hp ▸ hh.symm ▸ rfl)
        simp only [findAction]
        rw [if_neg hk, if_neg hk]
        simpa only [updateAction] using ih
      · rw [if_neg hp]
        simp only [findAction]
        by_cases hk : k0 = k
        · rw [if_pos hk, if_pos hk]
        · rw [if_neg hk, if_neg hk]
          simpa only [updateAction] using ih

/-- `approve` when the id is absent. -/
theorem approveQ_eq_none (q : EnforcementQueue) (now : Nat) (id approver : String)
    (h : findAction q.actions id = none) :
    approveQ q now id approver = (q, .error "action not found") := by
  simp [approveQ, h]

/-- `approve` of a non-Pending action: error, queue untouched. -/
theorem approveQ_eq_notPending (q : EnforcementQueue) (now : Nat) (id approver : String)
    (a : EnforcementAction) (h : findAction q.actions id = some a)
    (hst : a.status ≠ ActionStatus.Pending) :
    approveQ q now id approver = (q, .error ("not pending: " ++ a.status.debugStr)) := by
  simp only [approveQ, h]
  rw [if_pos hst]

/-- `approve` of a Pending action past its deadline: the action is marked
Expired and the call errors. -/
theorem approveQ_eq_expired (q : EnforcementQueue) (now : Nat) (id approver : String)
    (a : EnforcementAction) (h : findAction q.actions id = some a)
    (hst : a.status = ActionStatus.Pending) (hexp : now > a.expires_at) :
    approveQ q now id approver =
      ({ q with actions := updateAction q.actions id (setStatus .Expired) }, .error "expired") := by
  simp only [approveQ, h, setStatus]
  rw [if_neg (by simp [hst]), if_pos hexp]
  rfl

/-- `approve` of a live Pending action: status, `approved_by` and
`approved_at` are set and the updated action is returned. -/
theorem approveQ_eq_ok (q : EnforcementQueue) (now : Nat) (id approver : String)
    (a : EnforcementAction) (h : findAction q.actions id = some a)
    (hst : a.status = ActionStatus.Pending) (hexp : ¬ now > a.expires_at) :
    approveQ q now id approver =
      ({ q with actions := updateAction q.actions id (fun _ => approveFields approver now a) },
       .ok (approveFields approver now a)) := by
  simp only [approveQ, h, approveFields]
  rw [if_neg (by simp [hst]), if_neg hexp]

/-- `reject` when the id is absent. -/
theorem rejectQ_eq_none (q : EnforcementQueue) (id rejector : String)
    (h : findAction q.actions id = none) :
    rejectQ q id rejector = (q, .error "action not found") := by
  simp [rejectQ, h]

/-- `reject` of a non-Pending action: error, queue untouched. -/
theorem rejectQ_eq_notPending (q : EnforcementQueue) (id rejector : String)
    (a : EnforcementAction) (h : findAction q.actions id = some a)
    (hst : a.status ≠ ActionStatus.Pending) :
    rejectQ q id rejector = (q, .error ("not pending: " ++ a.status.debugStr)) := by
  simp only [rejectQ, h]
  rw [if_pos hst]

/-- `reject` of a Pending action succeeds with no expiry check at all. -/
theorem rejectQ_eq_ok (q : EnforcementQueue) (id rejector : String)
    (a : EnforcementAction) (h : findAction q.actions id = some a)
    (hst : a.status = ActionStatus.Pending) :
    rejectQ q id rejector =
      ({ q with actions := updateAction q.actions id (setStatus .Rejected) }, .ok ()) := by
  simp only [rejectQ, h, setStatus]
  rw [if_neg (by simp [hst])]
  rfl

/-- `complete` when the id is absent. -/
theorem completeQ_eq_none (q : EnforcementQueue) (id : String)
    (h : findAction q.actions id = none) :
    completeQ q id = (q, .error "action not found") := by
  simp [completeQ, h]

/-- `complete` of a non-Approved action: error, queue untouched. -/
theorem completeQ_eq_notApproved (q : EnforcementQueue) (id : String)
    (a : EnforcementAction) (h : findAction q.actions id = some a)
    (hst : a.status ≠ ActionStatus.Approved) :
    completeQ q id = (q, .error ("not approved: " ++ a.status.debugStr)) := by
  simp only [completeQ, h]
  rw [if_pos hst]

/-- `complete` of an Approved action: Executed. -/
theorem completeQ_eq_ok (q : EnforcementQueue) (id : String)
    (a : EnforcementAction) (h : findAction q.actions id = some a)
    (hst : a.status = ActionStatus.Approved) :
    completeQ q id =
      ({ q with actions := updateAction q.actions id (setStatus .Executed) }, .ok ()) := by
  simp only [completeQ, h, setStatus]
  rw [if_neg (by simp [hst])]
  rfl

/-- `approve` never changes entries other than the target id. -/
theorem approveQ_preserves_other (q : EnforcementQueue) (now : Nat)
    (id approver k : String) (hk : k ≠ id) :
    findAction (approveQ q now id approver).1.actions k = findAction q.actions k := by
  cases hf : findAction q.actions id with
  | none => rw [approveQ_eq_none q now id approver hf]
  | some b =>
      by_cases hst : b.status = ActionStatus.Pending
      · by_cases hexp : now > b.expires_at
        · rw [approveQ_eq_expired q now id approver b hf hst hexp]
          dsimp only
          exact findAction_updateAction_ne _ _ _ _ hk
        · rw [approveQ_eq_ok q now id approver b hf hst hexp]
          dsimp only
          exact findAction_updateAction_ne _ _ _ _ hk
      · rw [approveQ_eq_notPending q now id approver b hf hst]

/-- `reject` never changes entries other than the target id. -/
theorem rejectQ_preserves_other (q : EnforcementQueue) (id rejector k : String)
    (hk : k ≠ id) :
    findAction (rejectQ q id rejector).1.actions k = findAction q.actions k := by
  cases hf : findAction q.actions id with
  | none => rw [rejectQ_eq_none q id rejector hf]
  | some b =>
      by_cases hst : b.status = ActionStatus.Pending
      · rw [rejectQ_eq_ok q id rejector b hf hst]
        dsimp only
        exact findAction_updateAction_ne _ _ _ _ hk
      · rw [rejectQ_eq_notPending q id rejector b hf hst]

/-- `complete` never changes entries other than the target id. -/
theorem completeQ_preserves_other (q : EnforcementQueue) (id k : String)
    (hk : k ≠ id) :
    findAction (completeQ q id).1.actions k = findAction q.actions k := by
  cases hf : findAction q.actions id with
  | none => rw [completeQ_eq_none q id hf]
  | some b =>
      by_cases hst : b.status = ActionStatus.Approved
      · rw [completeQ_eq_ok q id b hf hst]
        dsimp only
        exact findAction_updateAction_ne _ _ _ _ hk
      · rw [completeQ_eq_notApproved q id b hf hst]

-- =========================================================================
-- C2: enforcement lifecycle transitions
-- =========================================================================

/-- C2.  For every action stored in the `EnforcementQueue`, a single
`approve`, `reject` or `complete` call either leaves its status unchanged
or performs one of `Pending → Approved`, `Pending → Rejected`,
`Pending → Expired`, `Approved → Executed` (so any sequence of such calls
produces only these transitions); an `approve` or `reject` of a
non-Pending action, and a `complete` of a non-Approved action, return an
error and leave the entire queue — hence that action's `status`,
`approved_by` and `approved_at` — unchanged.  In particular a second
`approve` on an already-Approved action errors without changing
`approved_by` or `approved_at`. -/
theorem enforcement_lifecycle_transitions (q : EnforcementQueue)
    (id approver rejector : String) (now : Nat) :
    (∀ k a a2, findAction q.actions k = some a →
        findAction (approveQ q now id approver).1.actions k = some a2 →
        allowedTransition a.status a2.status) ∧
    (∀ k a a2, findAction q.actions k = some a →
        findAction (rejectQ q id rejector).1.actions k = some a2 →
        allowedTransition a.status a2.status) ∧
    (∀ k a a2, findAction q.actions k = some a →
        findAction (completeQ q id).1.actions k = some a2 →
        allowedTransition a.status a2.status) ∧
    (∀ a, findAction q.actions id = some a → a.status ≠ ActionStatus.Pending →
        approveQ q now id approver = (q, .error ("not pending: " ++ a.status.debugStr)) ∧
        rejectQ q id rejector = (q, .error ("not pending: " ++ a.status.debugStr))) ∧
    (∀ a, findAction q.actions id = some a → a.status ≠ ActionStatus.Approved →
        completeQ q id = (q, .error ("not approved: " ++ a.status.debugStr))) := by
  refine ⟨?_, ?_, ?_, ?_, ?_⟩
  · intro k a a2 ha ha2
    by_cases hk : k = id
    · subst hk
      by_cases hst : a.status = ActionStatus.Pending
      · by_cases hexp : now > a.expires_at
        · rw [approveQ_eq_expired q now k approver a ha hst hexp] at ha2
          dsimp only at ha2
          rw [findAction_updateAction_self, ha] at ha2
          cases ha2
          exact Or.inr (Or.inl ⟨hst, Or.inr (Or.inr rfl)⟩)
        · rw [approveQ_eq_ok q now k approver a ha hst hexp] at ha2
          dsimp only at ha2
          rw [findAction_updateAction_self, ha] at ha2
          cases ha2
          exact Or.inr (Or.inl ⟨hst, Or.inl rfl⟩)
      · rw [approveQ_eq_notPending q now k approver a ha hst] at ha2
        dsimp only at ha2
        rw [ha] at ha2
        cases ha2
        exact Or.inl rfl
    · rw [approveQ_preserves_other q now id approver k hk, ha] at ha2
      cases ha2
      exact Or.inl rfl
  · intro k a a2 ha ha2
    by_cases hk : k = id
    · subst hk
      by_cases hst : a.status = ActionStatus.Pending
      · rw [rejectQ_eq_ok q k rejector a ha hst] at ha2
        dsimp only at ha2
        rw [findAction_updateAction_self, ha] at ha2
        cases ha2
        exact Or.inr (Or.inl ⟨hst, Or.inr (Or.inl rfl)⟩)
      · rw [rejectQ_eq_notPending q k rejector a ha hst] at ha2
        dsimp only at ha2
        rw [ha] at ha2
        cases ha2
        exact Or.inl rfl
    · rw [rejectQ_preserves_other q id rejector k hk, ha] at ha2
      cases ha2
      exact Or.inl rfl
  · intro k a a2 ha ha2
    by_cases hk : k = id
    · subst hk
      by_cases hst : a.status = ActionStatus.Approved
      · rw [completeQ_eq_ok q k a ha hst] at ha2
        dsimp only at ha2
        rw [findAction_updateAction_self, ha] at ha2
        cases ha2
        exact Or.inr (Or.inr ⟨hst, rfl⟩)
      · rw [completeQ_eq_notApproved q k a ha hst] at ha2
        dsimp only at ha2
        rw [ha] at ha2
        cases ha2
        exact Or.inl rfl
    · rw [completeQ_preserves_other q id k hk, ha] at ha2
      cases ha2
      exact Or.inl rfl
  · intro a ha hst
    exact ⟨approveQ_eq_notPending q now id approver a ha hst,
           rejectQ_eq_notPending q id rejector a ha hst⟩
  · intro a ha hst
    exact completeQ_eq_notApproved q id a ha hst

/-- An OS view with no interfering processes, for concrete instantiations:
the daemon pid is 999999 and no pid resolves in the process table. -/
def benignEnv : OsEnv := { my_pid := 999999, procs := fun _ => none }

/-- A queue with TTL 0 holding one Pending `KillProcess{123, 9}` proposed
at epoch second 100 (so `expires_at = 100`), mirroring the repository's
`expired_actions_cannot_be_approved` test. -/
def qPend : EnforcementQueue :=
  (propose (EnforcementQueue.new 0) benignEnv 100 (.KillProcess 123 9)
    "high CPU usage" "circuit_breaker" none).1

/-- The single action stored in `qPend`. -/
def aPend : EnforcementAction :=
  { id := "action-1", action := .KillProcess 123 9, reason := "high CPU usage",
    source := "circuit_breaker", confidence := none, status := .Pending,
    created_at := 100, expires_at := 100, approved_by := none, approved_at := none }

/-- `qPend` after a timely approval by alice at second 100. -/
def qAppr : EnforcementQueue := (approveQ qPend 100 "action-1" "alice").1

/-- Witness for C2: on the concrete queue `qAppr`, whose single action is
already Approved (by alice at 100), a second `approve` errors and leaves
the queue — including `approved_by`/`approved_at` — unchanged. -/
theorem enforcement_lifecycle_transitions_witness :
    findAction qAppr.actions "action-1" = some (approveFields "alice" 100 aPend) ∧
    (approveFields "alice" 100 aPend).status ≠ ActionStatus.Pending ∧
    approveQ qAppr 100 "action-1" "bob" =
      (qAppr, .error ("not pending: " ++ (approveFields "alice" 100 aPend).status.debugStr)) := by
  have h := (enforcement_lifecycle_transitions qAppr "action-1" "bob" "bob" 100).2.2.2.1
    (approveFields "alice" 100 aPend) (by decide) (by decide)
  exact ⟨by decide, by decide, h.1⟩

-- =========================================================================
-- C7: approve respects the TTL deadline
-- =========================================================================

/-- C7.  `approve` succeeds only on a Pending action not past its
`expires_at` (the code admits the boundary instant `now = expires_at`);
on a Pending action past the deadline it stores status Expired and
returns the error `"expired"`; otherwise it stores and returns the
Approved action. -/
theorem approve_expiry_behavior (q : EnforcementQueue) (id approver : String)
    (now : Nat) (a : EnforcementAction)
    (hf : findAction q.actions id = some a) (hp : a.status = ActionStatus.Pending) :
    (now > a.expires_at →
       approveQ q now id approver =
         ({ q with actions := updateAction q.actions id (setStatus .Expired) }, .error "expired") ∧
       findAction (approveQ q now id approver).1.actions id = some (setStatus .Expired a)) ∧
    (¬ now > a.expires_at →
       (approveQ q now id approver).2 = .ok (approveFields approver now a) ∧
       findAction (approveQ q now id approver).1.actions id =
         some (approveFields approver now a)) := by
  constructor
  · intro hexp
    have he := approveQ_eq_expired q now id approver a hf hp hexp
    refine ⟨he, ?_⟩
    rw [he]
    dsimp only
    rw [findAction_updateAction_self, hf]
    rfl
  · intro hexp
    have he := approveQ_eq_ok q now id approver a hf hp hexp
    constructor
    · rw [he]
    · rw [he]
      dsimp only
      rw [findAction_updateAction_self, hf]
      rfl

/-- Witness for C7: the TTL-0 scenario.  The action proposed at second 100
with TTL 0 expires at 100; approving at 101 returns the `"expired"` error
and the stored status becomes Expired. -/
theorem approve_expiry_behavior_witness :
    findAction qPend.actions "action-1" = some aPend ∧
    aPend.status = ActionStatus.Pending ∧ 101 > aPend.expires_at ∧
    approveQ qPend 101 "action-1" "alice" =
      ({ qPend with actions := updateAction qPend.actions "action-1" (setStatus .Expired) },
       .error "expired") ∧
    findAction (approveQ qPend 101 "action-1" "alice").1.actions "action-1" =
      some (setStatus .Expired aPend) := by
  have h := (approve_expiry_behavior qPend "action-1" "alice" 101 aPend
    (by decide) (by decide)).1 (by decide)
  exact ⟨by decide, by decide, by decide, h.1, h.2⟩

-- =========================================================================
-- C10: reject performs no expiration check
-- =========================================================================

/-- C10.  `reject` checks only that the action is Pending: on a Pending
action whose `expires_at` has already passed it still succeeds and stores
Rejected (not Expired), whereas `approve` on the same state errors with
`"expired"` and stores Expired — the final state of an overdue action
depends on which operation touches it first. -/
theorem reject_skips_expiry (q : EnforcementQueue) (id rejector approver : String)
    (now : Nat) (a : EnforcementAction)
    (hf : findAction q.actions id = some a) (hp : a.status = ActionStatus.Pending)
    (hexp : now > a.expires_at) :
    rejectQ q id rejector =
      ({ q with actions := updateAction q.actions id (setStatus .Rejected) }, .ok ()) ∧
    findAction (rejectQ q id rejector).1.actions id = some (setStatus .Rejected a) ∧
    (approveQ q now id approver).2 = .error "expired" ∧
    findAction (approveQ q now id approver).1.actions id = some (setStatus .Expired a) := by
  have hr := rejectQ_eq_ok q id rejector a hf hp
  have ha := approveQ_eq_expired q now id approver a hf hp hexp
  refine ⟨hr, ?_, ?_, ?_⟩
  · rw [hr]
    dsimp only
    rw [findAction_updateAction_self, hf]
    rfl
  · rw [ha]
  · rw [ha]
    dsimp only
    rw [findAction_updateAction_self, hf]
    rfl

/-- Witness for C10: on the overdue Pending action of `qPend` at second
101, `reject` succeeds and stores Rejected while `approve` on the same
state errors and stores Expired. -/
theorem reject_skips_expiry_witness :
    findAction qPend.actions "action-1" = some aPend ∧
    aPend.status = ActionStatus.Pending ∧ 101 > aPend.expires_at ∧
    rejectQ qPend "action-1" "bob" =
      ({ qPend with actions := updateAction qPend.actions "action-1" (setStatus .Rejected) },
       .ok ()) ∧
    findAction (rejectQ qPend "action-1" "bob").1.actions "action-1" =
      some (setStatus .Rejected aPend) ∧
    (approveQ qPend 101 "action-1" "alice").2 = .error "expired" ∧
    findAction (approveQ qPend 101 "action-1" "alice").1.actions "action-1" =
      some (setStatus .Expired aPend) := by
  have h := reject_skips_expiry qPend "action-1" "bob" "alice" 101 aPend
    (by decide) (by decide) (by decide)
  exact ⟨by decide, by decide, by decide, h.1, h.2.1, h.2.2.1, h.2.2.2⟩

-- =========================================================================
-- C9: event-rate cap with critical-event sampling
-- =========================================================================

/-- C9.  With a positive cap: while the running per-second count stays at
or below the cap the event is kept with no drop accounting; once the
count exceeds the cap the event is dropped — `record_event` returns
`false` and the per-type drop counter (at the clamped slot), the global
`rate_limited` counter and `dropped_events_total` are incremented —
unless its `event_type` is at most 2 and the running count is a multiple
of the sampling denominator 10, in which case it is kept. -/
theorem rate_cap_record_event (m : Metrics) (cap event_type : Nat) (hcap : 0 < cap) :
    (m.events_this_sec + 1 ≤ cap →
       (record_event m cap event_type).2 = true ∧
       (record_event m cap event_type).1.rate_limited_events = m.rate_limited_events ∧
       (∀ i, (record_event m cap event_type).1.drops_by_type i = m.drops_by_type i) ∧
       (record_event m cap event_type).1.dropped_events_total = m.dropped_events_total) ∧
    (m.events_this_sec + 1 > cap → event_type ≤ 2 → (m.events_this_sec + 1) % 10 = 0 →
       (record_event m cap event_type).2 = true ∧
       (record_event m cap event_type).1.rate_limited_events = m.rate_limited_events ∧
       (∀ i, (record_event m cap event_type).1.drops_by_type i = m.drops_by_type i)) ∧
    (m.events_this_sec + 1 > cap → 2 < event_type ∨ (m.events_this_sec + 1) % 10 ≠ 0 →
       (record_event m cap event_type).2 = false ∧
       (record_event m cap event_type).1.drops_by_type (event_index event_type) =
         m.drops_by_type (event_index event_type) + 1 ∧
       (record_event m cap event_type).1.rate_limited_events = m.rate_limited_events + 1 ∧
       (record_event m cap event_type).1.dropped_events_total = m.dropped_events_total + 1) := by
  refine ⟨?_, ?_, ?_⟩
  · intro hle
    have hcond : ¬ (cap > 0 ∧ m.events_this_sec + 1 > cap) := by omega
    simp [record_event, if_neg hcond]
  · intro hgt hcrit hmod
    have hcond : cap > 0 ∧ m.events_this_sec + 1 > cap := ⟨hcap, hgt⟩
    have hty : ¬ event_type > 2 := by omega
    simp [record_event, if_pos hcond, if_neg hty, hmod]
  · intro hgt hdrop
    have hcond : cap > 0 ∧ m.events_this_sec + 1 > cap := ⟨hcap, hgt⟩
    simp only [record_event, if_pos hcond]
    rcases hdrop with hty | hmod
    · rw [if_pos hty]
      simp [record_drop]
    · by_cases hty : event_type > 2
      · rw [if_pos hty]
        simp [record_drop]
      · rw [if_neg hty, if_pos hmod]
        simp [record_drop]

/-- Witness for C9: with cap 5 and running count already 5, a `Net` event
(type 3) is dropped with all three drop counters bumped, and an `Exec`
event (type 0) arriving as the 10th event of the second is kept. -/
theorem rate_cap_record_event_witness :
    (0 < 5 ∧
     ((Metrics.new.events_this_sec + 6 > 5 → 2 < 3 ∨ (6 : Nat) % 10 ≠ 0 → True))) ∧
    ((record_event { Metrics.new with events_this_sec := 5 } 5 3).2 = false ∧
     (record_event { Metrics.new with events_this_sec := 5 } 5 3).1.drops_by_type 3 = 1 ∧
     (record_event { Metrics.new with events_this_sec := 5 } 5 3).1.rate_limited_events = 1) ∧
    ((record_event { Metrics.new with events_this_sec := 9 } 5 0).2 = true ∧
     (record_event { Metrics.new with events_this_sec := 9 } 5 0).1.rate_limited_events = 0) := by
  have h1 := (rate_cap_record_event { Metrics.new with events_this_sec := 5 } 5 3
    (by decide)).2.2 (by decide) (Or.inl (by decide))
  have h2 := (rate_cap_record_event { Metrics.new with events_this_sec := 9 } 5 0
    (by decide)).2.1 (by decide) (by decide) (by decide)
  refine ⟨⟨by decide, fun _ _ => trivial⟩, ⟨h1.1, ?_, ?_⟩, h2.1, ?_⟩
  · have := h1.2.1
    simpa [Metrics.new, event_index] using this
  · have := h1.2.2.1
    simpa [Metrics.new] using this
  · have := h2.2.1
    simpa [Metrics.new] using this

-- =========================================================================
-- C3: safety guard gates every proposal
-- =========================================================================

/-- The violation conditions of the specification for killing/freezing a
pid: pid 0, 1 or the daemon itself; a live process named after a critical
binary; or a child of the daemon.  Written from the specification text,
to be compared with the embedded `is_safe_to_kill`. -/
def killViolation (env : OsEnv) (pid : Nat) : Prop :=
  pid = 0 ∨ pid = 1 ∨ pid = env.my_pid ∨
  ∃ p, env.procs pid = some p ∧
    ((∃ c ∈ CRITICAL_NAMES, strContainsSub (strLower p.name) c = true) ∨
     p.parent = some env.my_pid)

/-- The specification's violation conditions for each action type. -/
def guardViolation (env : OsEnv) : ActionType → Prop
  | .KillProcess pid _ => killViolation env pid
  | .FreezeProcess pid => killViolation env pid
  | .UnfreezeProcess _ => False
  | .ThrottleCgroup path _ _ => ∃ c ∈ CRITICAL_CGROUPS, strContainsSub path c = true

/-- The embedded kill guard accepts exactly the non-violating pids. -/
theorem is_safe_to_kill_ok_iff (env : OsEnv) (pid : Nat) :
    is_safe_to_kill env pid = .ok () ↔ ¬ killViolation env pid := by
  unfold is_safe_to_kill killViolation
  by_cases h1 : pid ≤ 1
  · rw [if_pos h1]
    constructor
    · intro h; cases h
    · intro h
      have h0 : pid = 0 ∨ pid = 1 := by omega
      rcases h0 with h0 | h0
      · exact absurd (Or.inl h0) h
      · exact absurd (Or.inr (Or.inl h0)) h
  · rw [if_neg h1]
    by_cases h2 : pid = env.my_pid
    · rw [if_pos h2]
      constructor
      · intro h; cases h
      · intro h
        exact absurd (Or.inr (Or.inr (Or.inl h2))) h
    · rw [if_neg h2]
      cases hp : env.procs pid with
      | none =>
          dsimp only
          constructor
          · intro _ hv
            rcases hv with hv | hv | hv | ⟨p, hpp, _⟩
            · omega
            · omega
            · exact h2 hv
            · cases hpp
          · intro _; rfl
      | some p =>
          dsimp only
          cases hc : CRITICAL_NAMES.find? (fun c => strContainsSub (strLower p.name) c) with
          | some c =>
              constructor
              · intro h; cases h
              · intro h
                refine absurd (Or.inr (Or.inr (Or.inr ⟨p, rfl, Or.inl ?_⟩))) h
                exact ⟨c, List.mem_of_find?_eq_some hc, List.find?_some hc⟩
          | none =>
              by_cases hpar : p.parent = some env.my_pid
              · rw [if_pos hpar]
                constructor
                · intro h; cases h
                · intro h
                  exact absurd (Or.inr (Or.inr (Or.inr ⟨p, rfl, Or.inr hpar⟩))) h
              · rw [if_neg hpar]
                constructor
                · intro _ hv
                  rcases hv with hv | hv | hv | ⟨p2, hpp, hbad⟩
                  · omega
                  · omega
                  · exact h2 hv
                  · cases hpp
                    rcases hbad with ⟨c, hcmem, hcsub⟩ | hbad
                    · have := List.find?_eq_none.mp hc c hcmem
                      rw [hcsub] at this
                      exact this rfl
                    · exact hpar hbad
                · intro _; rfl

/-- The embedded cgroup guard accepts exactly the paths free of critical
prefixes. -/
theorem is_safe_cgroup_ok_iff (path : String) :
    is_safe_cgroup path = .ok () ↔
      ¬ ∃ c ∈ CRITICAL_CGROUPS, strContainsSub path c = true := by
  unfold is_safe_cgroup
  cases hc : CRITICAL_CGROUPS.find? (fun c => strContainsSub path c) with
  | some c =>
      constructor
      · intro h; cases h
      · intro h
        exact absurd ⟨c, List.mem_of_find?_eq_some hc, List.find?_some hc⟩ h
  | none =>
      constructor
      · intro _ hv
        rcases hv with ⟨c, hcmem, hcsub⟩
        have := List.find?_eq_none.mp hc c hcmem
        rw [hcsub] at this
        exact this rfl
      · intro _; rfl

/-- The dispatched guard accepts exactly the non-violating actions. -/
theorem guardCheck_ok_iff (env : OsEnv) (act : ActionType) :
    guardCheck env act = .ok () ↔ ¬ guardViolation env act := by
  cases act with
  | KillProcess pid s => exact is_safe_to_kill_ok_iff env pid
  | FreezeProcess pid => exact is_safe_to_kill_ok_iff env pid
  | UnfreezeProcess pid => simp [guardCheck, guardViolation]
  | ThrottleCgroup path a b => exact is_safe_cgroup_ok_iff path

/-- On a guard error, `propose_internal` returns the error and the
untouched queue. -/
theorem propose_internal_err (q : EnforcementQueue) (env : OsEnv) (now : Nat)
    (act : ActionType) (r s : String) (conf : Option ℚ) (auto : Bool) (e : String)
    (h : guardCheck env act = .error e) :
    propose_internal q env now act r s conf auto = (q, .error e) := by
  simp [propose_internal, h]

/-- The action record built by a successful `propose_internal`. -/
def mkProposed (q : EnforcementQueue) (now : Nat) (act : ActionType)
    (r s : String) (conf : Option ℚ) (auto : Bool) : EnforcementAction :=
  { id := "action-" ++ toString q.next_id, action := act, reason := r, source := s,
    confidence := conf,
    status := if auto then .Approved else .Pending,
    created_at := now, expires_at := now + q.ttl_secs,
    approved_by := if auto then some "circuit_breaker" else none,
    approved_at := if auto then some now else none }

/-- On a passing guard, `propose_internal` prepends exactly the new action
and returns its id. -/
theorem propose_internal_ok (q : EnforcementQueue) (env : OsEnv) (now : Nat)
    (act : ActionType) (r s : String) (conf : Option ℚ) (auto : Bool)
    (h : guardCheck env act = .ok ()) :
    propose_internal q env now act r s conf auto =
      ({ q with next_id := q.next_id + 1,
                actions := ("action-" ++ toString q.next_id,
                  mkProposed q now act r s conf auto) :: q.actions },
       .ok ("action-" ++ toString q.next_id)) := by
  simp only [propose_internal, h, mkProposed]
  cases auto <;> rfl

/-- One call into `propose`/`propose_auto`, with the OS environment at the
time of the call. -/
structure ProposeCall where
  env : OsEnv
  now : Nat
  action : ActionType
  reason : String
  source : String
  confidence : Option ℚ
  auto : Bool

/-- A queue built from scratch by a sequence of proposals. -/
def runProposes (ttl : Nat) (calls : List ProposeCall) : EnforcementQueue :=
  calls.foldl
    (fun q c => (propose_internal q c.env c.now c.action c.reason c.source
      c.confidence c.auto).1)
    (EnforcementQueue.new ttl)

/-- Any action found after one proposal was either already present or is
the new action, which passed the guard. -/
theorem propose_step_mem (q : EnforcementQueue) (env : OsEnv) (now : Nat)
    (act : ActionType) (r s : String) (conf : Option ℚ) (auto : Bool)
    (k : String) (a : EnforcementAction)
    (h : findAction (propose_internal q env now act r s conf auto).1.actions k = some a) :
    findAction q.actions k = some a ∨
      (guardCheck env act = .ok () ∧ a.action = act) := by
  cases hg : guardCheck env act with
  | error e =>
      rw [propose_internal_err q env now act r s conf auto e hg] at h
      exact Or.inl h
  | ok u =>
      cases u
      rw [propose_internal_ok q env now act r s conf auto hg] at h
      dsimp only [findAction] at h
      by_cases hk : ("action-" ++ toString q.next_id) = k
      · rw [if_pos hk] at h
        cases h
        exact Or.inr ⟨rfl, rfl⟩
      · rw [if_neg hk] at h
        exact Or.inl h

/-- Fold version of `propose_step_mem` over a script of proposals. -/
theorem runProposes_mem (calls : List ProposeCall) :
    ∀ (q : EnforcementQueue) (k : String) (a : EnforcementAction),
      findAction (calls.foldl
        (fun q c => (propose_internal q c.env c.now c.action c.reason c.source
          c.confidence c.auto).1) q).actions k = some a →
      findAction q.actions k = some a ∨
        ∃ c ∈ calls, guardCheck c.env a.action = .ok () := by
  induction calls with
  | nil =>
      intro q k a h
      exact Or.inl h
  | cons c rest ih =>
      intro q k a h
      rcases ih _ k a h with h1 | ⟨c2, hc2, hok⟩
      · rcases propose_step_mem q c.env c.now c.action c.reason c.source
          c.confidence c.auto k a h1 with h2 | ⟨hok, hact⟩
        · exact Or.inl h2
        · exact Or.inr ⟨c, List.mem_cons_self c rest, by rw [hact]; exact hok⟩
      · exact Or.inr ⟨c2, List.mem_cons_of_mem c hc2, hok⟩

/-- C3.  `propose` and `propose_auto` (both through `propose_internal`) run
the safety guard synchronously: on any violating proposal — a
`KillProcess`/`FreezeProcess` of pid 0, 1 or the daemon, of a process the
live OS view names after a critical binary, or of a child of the daemon;
or a `ThrottleCgroup` whose path contains a critical prefix — the call
returns an error and inserts nothing; on a non-violating proposal
(`UnfreezeProcess` always qualifies) exactly the new action is inserted;
consequently every action ever present in a queue built by proposals
passed the guard of its own call's environment. -/
theorem safety_guard_gates_proposals :
    (∀ (q : EnforcementQueue) (env : OsEnv) (now : Nat) (act : ActionType)
        (r s : String) (conf : Option ℚ) (auto : Bool),
       guardViolation env act →
         ∃ e, propose_internal q env now act r s conf auto = (q, .error e)) ∧
    (∀ (q : EnforcementQueue) (env : OsEnv) (now : Nat) (act : ActionType)
        (r s : String) (conf : Option ℚ) (auto : Bool),
       ¬ guardViolation env act →
         propose_internal q env now act r s conf auto =
           ({ q with next_id := q.next_id + 1,
                     actions := ("action-" ++ toString q.next_id,
                       mkProposed q now act r s conf auto) :: q.actions },
            .ok ("action-" ++ toString q.next_id))) ∧
    (∀ (env : OsEnv) (pid : Nat), ¬ guardViolation env (.UnfreezeProcess pid)) ∧
    (∀ (ttl : Nat) (calls : List ProposeCall) (k : String) (a : EnforcementAction),
       findAction (runProposes ttl calls).actions k = some a →
         ∃ c ∈ calls, ¬ guardViolation c.env a.action) := by
  refine ⟨?_, ?_, ?_, ?_⟩
  · intro q env now act r s conf auto hv
    cases hg : guardCheck env act with
    | error e => exact ⟨e, propose_internal_err q env now act r s conf auto e hg⟩
    | ok u =>
        cases u
        exact absurd hv ((guardCheck_ok_iff env act).mp hg)
  · intro q env now act r s conf auto hv
    exact propose_internal_ok q env now act r s conf auto
      ((guardCheck_ok_iff env act).mpr hv)
  · intro env pid hv
    exact hv
  · intro ttl calls k a h
    rcases runProposes_mem calls (EnforcementQueue.new ttl) k a h with h1 | ⟨c, hc, hok⟩
    · cases h1
    · exact ⟨c, hc, (guardCheck_ok_iff c.env a.action).mp hok⟩

/-- Witness for C3: killing pid 1 is vetoed without insertion; killing the
daemon's own pid is vetoed; throttling a path under `/system.slice` is
vetoed; unfreezing is accepted and enqueues exactly one action. -/
theorem safety_guard_gates_proposals_witness :
    guardViolation benignEnv (.KillProcess 1 9) ∧
    guardViolation benignEnv (.KillProcess 999999 9) ∧
    guardViolation benignEnv (.ThrottleCgroup "/system.slice/foo" 1000 10000) ∧
    (∃ e, propose_internal (EnforcementQueue.new 300) benignEnv 50 (.KillProcess 1 9)
        "r" "s" none false = (EnforcementQueue.new 300, .error e)) ∧
    (propose_internal (EnforcementQueue.new 300) benignEnv 50 (.UnfreezeProcess 77)
        "r" "s" none false).2 = .ok "action-1" ∧
    (propose_internal (EnforcementQueue.new 300) benignEnv 50 (.UnfreezeProcess 77)
        "r" "s" none false).1.actions =
      [("action-1", mkProposed (EnforcementQueue.new 300) 50 (.UnfreezeProcess 77)
        "r" "s" none false)] := by
  have hv1 : guardViolation benignEnv (.KillProcess 1 9) := Or.inr (Or.inl rfl)
  have hv2 : guardViolation benignEnv (.KillProcess 999999 9) :=
    Or.inr (Or.inr (Or.inl rfl))
  have hv3 : guardViolation benignEnv (.ThrottleCgroup "/system.slice/foo" 1000 10000) :=
    ⟨"/system.slice", by decide, by decide⟩
  have h1 := safety_guard_gates_proposals.1 (EnforcementQueue.new 300) benignEnv 50
    (.KillProcess 1 9) "r" "s" none false hv1
  have h2 := safety_guard_gates_proposals.2.1 (EnforcementQueue.new 300) benignEnv 50
    (.UnfreezeProcess 77) "r" "s" none false
    (safety_guard_gates_proposals.2.2.1 benignEnv 77)
  refine ⟨hv1, hv2, hv3, h1, ?_, ?_⟩
  · rw [h2]
    rfl
  · rw [h2]
    rfl

-- =========================================================================
-- Helper lemmas: history pruning and the live map
-- =========================================================================

/-- The age loop drops only a front run of expired Exit entries. -/
theorem pruneAge_dropped (now ma : Nat) (q : List (Nat × ProcessEvent)) :
    ∃ d, d ++ pruneAge now ma q = q ∧
      ∀ te ∈ d, te.2.event_type = 2 ∧ te.2.exit_time_ns ≠ 0 ∧
        wsub64 now te.2.exit_time_ns > ma := by
  induction q with
  | nil => exact ⟨[], rfl, by simp⟩
  | cons a l ih =>
      obtain ⟨t, e⟩ := a
      by_cases h : e.event_type = 2 ∧ e.exit_time_ns ≠ 0 ∧ wsub64 now e.exit_time_ns > ma
      · obtain ⟨d, hd, hall⟩ := ih
        refine ⟨(t, e) :: d, ?_, ?_⟩
        · simp only [pruneAge, if_pos h, List.cons_append, hd]
        · intro te hte
          rcases List.mem_cons.mp hte with hte | hte
          · cases hte; exact h
          · exact hall te hte
      · exact ⟨[], by simp only [pruneAge, if_neg h, List.nil_append], by simp⟩

/-- A non-expired last element survives the age loop. -/
theorem pruneAge_append_last (now ma : Nat) (q : List (Nat × ProcessEvent))
    (t : Nat) (e : ProcessEvent)
    (h : ¬ (e.event_type = 2 ∧ e.exit_time_ns ≠ 0 ∧ wsub64 now e.exit_time_ns > ma)) :
    ∃ q2, pruneAge now ma (q ++ [(t, e)]) = q2 ++ [(t, e)] := by
  induction q with
  | nil =>
      refine ⟨[], ?_⟩
      simp only [List.nil_append, pruneAge, if_neg h]
  | cons a l ih =>
      obtain ⟨t0, e0⟩ := a
      by_cases h0 : e0.event_type = 2 ∧ e0.exit_time_ns ≠ 0 ∧ wsub64 now e0.exit_time_ns > ma
      · obtain ⟨q2, hq2⟩ := ih
        refine ⟨q2, ?_⟩
        simp only [List.cons_append, pruneAge, if_pos h0]
        exact hq2
      · refine ⟨(t0, e0) :: l, ?_⟩
        simp only [List.cons_append, pruneAge, if_neg h0]
        rfl

/-- The length loop caps the queue at `max_len` entries. -/
theorem pruneLen_length_le (q : List (Nat × ProcessEvent)) (n : Nat) :
    (pruneLen q n).length ≤ n := by
  induction q with
  | nil => simp [pruneLen]
  | cons a l ih =>
      rw [pruneLen]
      by_cases h : (a :: l).length > n
      · rw [if_pos h]; exact ih
      · rw [if_neg h]; omega

/-- The length loop removes entries only from the front. -/
theorem pruneLen_suffix (q : List (Nat × ProcessEvent)) (n : Nat) :
    (pruneLen q n).IsSuffix q := by
  induction q with
  | nil => simp [pruneLen]
  | cons a l ih =>
      rw [pruneLen]
      by_cases h : (a :: l).length > n
      · rw [if_pos h]
        exact ih.trans (List.suffix_cons a l)
      · rw [if_neg h]

/-- A queue within the length bound is untouched by the length loop. -/
theorem pruneLen_eq_self (q : List (Nat × ProcessEvent)) (n : Nat)
    (h : q.length ≤ n) : pruneLen q n = q := by
  cases q with
  | nil => rfl
  | cons a l =>
      rw [pruneLen, if_neg (by omega)]

/-- With `max_len ≥ 1`, the length loop preserves the last element. -/
theorem pruneLen_append_last (q : List (Nat × ProcessEvent))
    (x : Nat × ProcessEvent) (n : Nat) (hn : 1 ≤ n) :
    ∃ q2, pruneLen (q ++ [x]) n = q2 ++ [x] := by
  induction q with
  | nil =>
      refine ⟨[], ?_⟩
      rw [List.nil_append, pruneLen, if_neg (by simp; omega)]
  | cons a l ih =>
      rw [List.cons_append, pruneLen]
      by_cases h : (a :: (l ++ [x])).length > n
      · rw [if_pos h]
        exact ih
      · rw [if_neg h]
        exact ⟨a :: l, by rw [List.cons_append]⟩

/-- Inserting a key makes it found with the inserted value (replace case
needs the key to be present, which `assocInsert` checks). -/
theorem findLive_mapReplace (m : List (Nat × ProcessEvent)) (k : Nat)
    (v : ProcessEvent) (h : m.any (fun p => p.1 = k) = true) :
    findLive (m.map (fun p => if p.1 = k then (k, v) else p)) k = some v := by
  induction m with
  | nil => cases h
  | cons p l ih =>
      obtain ⟨k0, e0⟩ := p
      simp only [List.map_cons]
      by_cases h0 : k0 = k
      · rw [if_pos h0]
        simp [findLive]
      · rw [if_neg h0]
        simp only [findLive, if_neg h0]
        apply ih
        simpa [h0] using h

/-- `HashMap::insert` makes the key found with the new value. -/
theorem findLive_assocInsert_self (m : List (Nat × ProcessEvent)) (k : Nat)
    (v : ProcessEvent) : findLive (assocInsert m k v) k = some v := by
  unfold assocInsert
  by_cases h : m.any (fun p => p.1 = k) = true
  · rw [if_pos h]
    exact findLive_mapReplace m k v h
  · rw [if_neg h]
    simp [findLive]

/-- A found entry that passes the retention predicate is still found after
the filter. -/
theorem findLive_filter (l : List (Nat × ProcessEvent))
    (pred : Nat × ProcessEvent → Bool) (k : Nat) (v : ProcessEvent)
    (h : findLive l k = some v) (hp : pred (k, v) = true) :
    findLive (l.filter pred) k = some v := by
  induction l with
  | nil => cases h
  | cons p l ih =>
      obtain ⟨k0, e0⟩ := p
      simp only [findLive] at h
      by_cases hk : k0 = k
      · rw [if_pos hk] at h
        cases h
        subst hk
        rw [List.filter_cons, if_pos hp]
        simp [findLive]
      · rw [if_neg hk] at h
        rw [List.filter_cons]
        by_cases hkeep : pred (k0, e0) = true
        · rw [if_pos hkeep]
          simp only [findLive, if_neg hk]
          exact ih h
        · rw [if_neg hkeep]
          exact ih h

-- =========================================================================
-- C4: Exit timestamp normalization
-- =========================================================================

/-- C4.  When `add` records an Exit for a pid whose live entry exists, the
history receives (as its newest entry) the Exit with `ts_ns` rewritten to
the stored start time and `exit_time_ns` set to the original `ts_ns`
(so `exit_time_ns − ts_ns` is the process lifetime); and the pid stays in
the live map with `event_type = Exit` (its wall-clock `exit_time` set to
the add time, within the grace window). -/
theorem exit_normalization (s : ContextStore) (now : Nat) (e p : ProcessEvent)
    (htype : e.event_type = 2) (hlive : findLive s.live e.pid = some p)
    (hlen : 1 ≤ s.max_len)
    (hfresh : ¬ wsub64 now e.ts_ns > s.max_age_ns) (hage : 0 < s.max_age_ns) :
    (∃ h2, (s.add now e).history =
        h2 ++ [(now, { e with ts_ns := p.ts_ns, exit_time_ns := e.ts_ns })]) ∧
    findLive (s.add now e).live e.pid =
      some { p with exit_time_ns := now, event_type := 2 } := by
  have hev : fixExitTimestamps s.live e =
      { e with ts_ns := p.ts_ns, exit_time_ns := e.ts_ns } := by
    unfold fixExitTimestamps
    rw [if_pos htype, hlive]
  constructor
  · show ∃ h2, prune_locked (s.history ++ [(now, fixExitTimestamps s.live e)])
        now s.max_age_ns s.max_len = _
    rw [hev]
    unfold prune_locked
    have hpred : ¬ (({ e with ts_ns := p.ts_ns, exit_time_ns := e.ts_ns} :
        ProcessEvent).event_type = 2 ∧
        ({ e with ts_ns := p.ts_ns, exit_time_ns := e.ts_ns} :
        ProcessEvent).exit_time_ns ≠ 0 ∧
        wsub64 now ({ e with ts_ns := p.ts_ns, exit_time_ns := e.ts_ns} :
        ProcessEvent).exit_time_ns > s.max_age_ns) := by
      intro hcon
      exact hfresh hcon.2.2
    obtain ⟨q2, hq2⟩ := pruneAge_append_last now s.max_age_ns s.history now _ hpred
    rw [hq2]
    exact pruneLen_append_last q2 _ s.max_len hlen
  · show findLive (liveRetain (liveUpdate s.live now (fixExitTimestamps s.live e))
        now s.max_age_ns) (e.pid) = _
    rw [hev]
    unfold liveUpdate
    simp only [htype]
    rw [show ({ e with ts_ns := p.ts_ns, exit_time_ns := e.ts_ns} :
        ProcessEvent).pid = e.pid from rfl, hlive]
    unfold liveRetain
    apply findLive_filter
    · exact findLive_assocInsert_self _ _ _
    · simp only [decide_eq_true_eq]
      by_cases hnow : now = 0
      · exact Or.inr (Or.inl (by simp [hnow]))
      · exact Or.inr (Or.inr (by simp; omega))

/-- The store of the end-to-end scenario: Exec at `ts=1_000_000_000`
added (wall clock 5e9), for pid 100. -/
def execStore : ContextStore :=
  (ContextStore.new 10000000000 128).add 5000000000 (mkEvent 100 1 0 1000000000)

/-- The history record the scenario expects: the Exit rewritten to start
time 1e9 with exit time 2.5e9. -/
def exitHistEvent : ProcessEvent :=
  { mkEvent 100 1 2 2500000000 with ts_ns := 1000000000, exit_time_ns := 2500000000 }

/-- The live record the scenario expects: the Exec entry mutated to an
Exit with wall-clock exit time 6e9. -/
def exitLiveEvent : ProcessEvent :=
  { mkEvent 100 1 0 1000000000 with exit_time_ns := 6000000000, event_type := 2 }

/-- Witness for C4: the scenario of the specification.  After the Exec at
`ts=1e9` and an Exit at `ts=2.5e9` for pid 100, the newest history entry
is an Exit with `ts_ns = 1e9` and `exit_time_ns = 2.5e9` (lifetime
`1.5e9`), and pid 100 is still live with `event_type = Exit`. -/
theorem exit_normalization_witness :
    (∃ h2, (execStore.add 6000000000 (mkEvent 100 1 2 2500000000)).history =
        h2 ++ [(6000000000, exitHistEvent)]) ∧
    exitHistEvent.exit_time_ns - exitHistEvent.ts_ns = 1500000000 ∧
    findLive (execStore.add 6000000000 (mkEvent 100 1 2 2500000000)).live 100 =
      some exitLiveEvent := by
  have h := exit_normalization execStore 6000000000 (mkEvent 100 1 2 2500000000)
    ((mkEvent 100 1 0 1000000000).set_exit_time none)
    (by decide) (by decide) (by decide) (by decide) (by decide)
  exact ⟨h.1, by decide, h.2⟩

-- =========================================================================
-- C6: history bounds (corrected)
-- =========================================================================

/-- A store holding a non-Exit entry far older than `max_age`
(`max_age = 10 ns`, entries added at wall-clock 0 and 100). -/
def agedStore : ContextStore :=
  ((ContextStore.new 10 10).add 0 (mkEvent 1 0 0 5)).add 100 (mkEvent 2 0 0 6)

/-- Counterexample to C6 as stated: in `agedStore` (max_age 10 ns) the
oldest retained history entry was captured at wall-clock 0 and is
observed at wall-clock 100 — ten times `max_age`, far beyond even the
one-window Exit grace — yet it is retained, because the age loop of
`prune_locked` only ever removes *Exit* entries and this entry is an
Exec. -/
theorem history_age_bound_counterexample :
    agedStore.history.head? = some (0, mkEvent 1 0 0 5) ∧
    agedStore.max_age_ns = 10 ∧
    wsub64 100 0 > 2 * agedStore.max_age_ns ∧
    (mkEvent 1 0 0 5).event_type ≠ 2 := by
  refine ⟨by decide, by decide, ?_, by decide⟩
  show (100 + 2 ^ 64 - 0 % 2 ^ 64) % 2 ^ 64 > 2 * agedStore.max_age_ns
  norm_num [agedStore, ContextStore.new, ContextStore.add]

/-- C6 (amended).  After every `add` the history holds at most `max_len`
entries and entries are removed only from the front; but the wall-clock
age bound holds only for Exit entries: when the `max_len` bound is not
binding, everything the prune removes is an Exit entry whose
`exit_time_ns` lies more than `max_age` before the add's wall-clock time
— non-Exit entries are never age-pruned and may remain beyond `max_age`
(they are bounded only by `max_len`). -/
theorem history_bounds_amended (s : ContextStore) (now : Nat) (e : ProcessEvent) :
    (s.add now e).history.length ≤ s.max_len ∧
    (s.add now e).history.IsSuffix (s.history ++ [(now, fixExitTimestamps s.live e)]) ∧
    (s.history.length < s.max_len →
       ∃ d, d ++ (s.add now e).history = s.history ++ [(now, fixExitTimestamps s.live e)] ∧
         ∀ te ∈ d, te.2.event_type = 2 ∧ te.2.exit_time_ns ≠ 0 ∧
           wsub64 now te.2.exit_time_ns > s.max_age_ns) := by
  have hhist : (s.add now e).history =
      pruneLen (pruneAge now s.max_age_ns (s.history ++ [(now, fixExitTimestamps s.live e)]))
        s.max_len := rfl
  refine ⟨?_, ?_, ?_⟩
  · rw [hhist]
    exact pruneLen_length_le _ _
  · rw [hhist]
    obtain ⟨d, hd, _⟩ := pruneAge_dropped now s.max_age_ns
      (s.history ++ [(now, fixExitTimestamps s.live e)])
    exact (pruneLen_suffix _ _).trans ⟨d, hd⟩
  · intro hlt
    obtain ⟨d, hd, hall⟩ := pruneAge_dropped now s.max_age_ns
      (s.history ++ [(now, fixExitTimestamps s.live e)])
    have hlen : (pruneAge now s.max_age_ns
        (s.history ++ [(now, fixExitTimestamps s.live e)])).length ≤ s.max_len := by
      have := congrArg List.length hd
      simp only [List.length_append, List.length_cons] at this
      simp at this
      omega
    refine ⟨d, ?_, hall⟩
    rw [hhist, pruneLen_eq_self _ _ hlen]
    exact hd

/-- Witness for C6 (amended): applied to `agedStore`'s construction — the
second add is within the length bound, so the prune dropped only expired
Exit entries (here: nothing). -/
theorem history_bounds_amended_witness :
    (((ContextStore.new 10 10).add 0 (mkEvent 1 0 0 5)).history.length < 10) ∧
    agedStore.history.length ≤ 10 ∧
    (∃ d, d ++ agedStore.history =
        ((ContextStore.new 10 10).add 0 (mkEvent 1 0 0 5)).history ++
          [(100, fixExitTimestamps ((ContextStore.new 10 10).add 0 (mkEvent 1 0 0 5)).live
            (mkEvent 2 0 0 6))] ∧
      ∀ te ∈ d, te.2.event_type = 2 ∧ te.2.exit_time_ns ≠ 0 ∧
        wsub64 100 te.2.exit_time_ns > 10) := by
  have h := history_bounds_amended ((ContextStore.new 10 10).add 0 (mkEvent 1 0 0 5))
    100 (mkEvent 2 0 0 6)
  exact ⟨by decide, h.1, h.2.2 (by decide)⟩

-- =========================================================================
-- C8: circuit-breaker grace period and kill proposal
-- =========================================================================

/-- The scenario configuration of the specification: default thresholds
(CPU 90 %, PSI 40 %), 15 s grace, monitor mode, kill-only strategy. -/
def cbCfgTest : CbConfig :=
  { cpu_usage_threshold := 90, cpu_psi_threshold := 40, grace_period_secs := 15,
    require_human_approval := true, mode := "monitor", escalation_strategy := "kill",
    psi_panic_threshold := 80, freeze_duration_secs := 30 }

/-- The scenario tick script: 10 s of breach (CPU 95, PSI 50 at seconds
0, 5, 10), then CPU drops to 20 at second 15. -/
def cbTicksTest : List CbInput :=
  [{ now := 0, snap := { cpu_percent := 95, psi_cpu_some_avg10 := 50 },
     liveTop := [], syswTop := [] },
   { now := 5, snap := { cpu_percent := 95, psi_cpu_some_avg10 := 50 },
     liveTop := [], syswTop := [] },
   { now := 10, snap := { cpu_percent := 95, psi_cpu_some_avg10 := 50 },
     liveTop := [], syswTop := [] },
   { now := 15, snap := { cpu_percent := 20, psi_cpu_some_avg10 := 50 },
     liveTop := [], syswTop := [] }]

/-- C8.  On a tick where the breach (CPU above `cpu_usage_threshold` and
PSI above `cpu_psi_threshold`) has held since `t0` with
`now − t0 ≥ grace_period_secs`, the breaker (on the kill-only strategy
path the spec fixes) proposes `KillProcess{pid, 9}` for the head of the
live top-CPU answer, falling back to the system-wide answer when the live
one is empty, auto-approved iff `mode = "enforce"` and
`require_human_approval = false`, and clears the breach start; on a
non-breach tick it clears the breach start and proposes nothing; on a
breach tick short of the grace period it changes nothing and proposes
nothing.  The scripted 10 s-breach / 15 s-grace scenario proposes no
action at any tick. -/
theorem circuit_breaker_behavior :
    (∀ (cfg : CbConfig) (st : CbState) (now : Nat) (snap : CbSnapshot)
        (liveTop syswTop : List TopProc) (t0 : Nat) (proc : TopProc),
       (cfg.mode = "monitor" ∨ cfg.mode = "enforce") →
       cfg.escalation_strategy ≠ "freeze_first" →
       st.breach_started_at = some t0 →
       now - t0 ≥ cfg.grace_period_secs →
       snap.cpu_percent > cfg.cpu_usage_threshold →
       snap.psi_cpu_some_avg10 > cfg.cpu_psi_threshold →
       (if liveTop.isEmpty then syswTop else liveTop).head? = some proc →
       ∃ b, (cbTick cfg st now snap liveTop syswTop).2.1 =
           some (ActionType.KillProcess proc.pid 9, b) ∧
         (b = true ↔ (cfg.mode = "enforce" ∧ cfg.require_human_approval = false)) ∧
         (cbTick cfg st now snap liveTop syswTop).1.breach_started_at = none) ∧
    (∀ (cfg : CbConfig) (st : CbState) (now : Nat) (snap : CbSnapshot)
        (liveTop syswTop : List TopProc),
       ¬ (snap.cpu_percent > cfg.cpu_usage_threshold ∧
          snap.psi_cpu_some_avg10 > cfg.cpu_psi_threshold) →
       (cbTick cfg st now snap liveTop syswTop).1.breach_started_at = none ∧
       (cbTick cfg st now snap liveTop syswTop).2.1 = none) ∧
    (∀ (cfg : CbConfig) (st : CbState) (now : Nat) (snap : CbSnapshot)
        (liveTop syswTop : List TopProc) (t0 : Nat),
       st.breach_started_at = some t0 →
       snap.cpu_percent > cfg.cpu_usage_threshold →
       snap.psi_cpu_some_avg10 > cfg.cpu_psi_threshold →
       now - t0 < cfg.grace_period_secs →
       cbTick cfg st now snap liveTop syswTop = (st, none, [])) ∧
    ((cbRun cbCfgTest { breach_started_at := none, frozen := [] } cbTicksTest).2 =
       [none, none, none, none] ∧
     (cbRun cbCfgTest { breach_started_at := none, frozen := [] } cbTicksTest).1 =
       { breach_started_at := none, frozen := [] }) := by
  refine ⟨?_, ?_, ?_, by decide, by decide⟩
  · intro cfg st now snap liveTop syswTop t0 proc hmode hstrat hb hdur hcpu hpsi htop
    have huf : ¬ ((cfg.escalation_strategy = "freeze_first" ∧
        ¬ snap.psi_cpu_some_avg10 ≥ cfg.psi_panic_threshold) ∧
        st.frozen.find? (fun f => f.1 = proc.pid ∧
          now - f.2.2 ≥ cfg.freeze_duration_secs) = none) :=
      fun hcon => hstrat hcon.1.1
    have htick : (cbTick cfg st now snap liveTop syswTop).2.1 =
        some (ActionType.KillProcess proc.pid 9,
          if cfg.mode = "monitor" then false else ! cfg.require_human_approval) ∧
        (cbTick cfg st now snap liveTop syswTop).1.breach_started_at = none := by
      unfold cbTick
      rw [if_pos ⟨hcpu, hpsi⟩, hb]
      dsimp only
      rw [if_pos hdur, htop]
      dsimp only
      rw [if_neg huf]
      exact ⟨rfl, rfl⟩
    refine ⟨if cfg.mode = "monitor" then false else ! cfg.require_human_approval,
      htick.1, ?_, htick.2⟩
    by_cases hm : cfg.mode = "monitor"
    · rw [if_pos hm]
      constructor
      · intro h; cases h
      · intro ⟨he, _⟩
        rw [hm] at he
        exact absurd he (by decide)
    · rw [if_neg hm]
      have he : cfg.mode = "enforce" := by
        rcases hmode with h | h
        · exact absurd h hm
        · exact h
      cases hreq : cfg.require_human_approval with
      | true =>
          constructor
          · intro h; cases h
          · intro ⟨_, hfalse⟩
            cases hfalse
      | false =>
          constructor
          · intro _; exact ⟨he, rfl⟩
          · intro _; rfl
  · intro cfg st now snap liveTop syswTop hnb
    unfold cbTick
    rw [if_neg hnb]
    exact ⟨rfl, rfl⟩
  · intro cfg st now snap liveTop syswTop t0 hb hcpu hpsi hdur
    unfold cbTick
    rw [if_pos ⟨hcpu, hpsi⟩, hb]
    dsimp only
    rw [if_neg (by omega)]

/-- Witness for C8: with enforce mode, no human-approval requirement, the
kill-only strategy, a breach since second 0 observed at second 20 (grace
15) and live top consumer pid 4242, the tick proposes
`KillProcess{4242, 9}` auto-approved. -/
theorem circuit_breaker_behavior_witness :
    ∃ b, (cbTick
        { cpu_usage_threshold := 90, cpu_psi_threshold := 40, grace_period_secs := 15,
          require_human_approval := false, mode := "enforce",
          escalation_strategy := "kill", psi_panic_threshold := 80,
          freeze_duration_secs := 30 }
        { breach_started_at := some 0, frozen := [] } 20
        { cpu_percent := 95, psi_cpu_some_avg10 := 50 }
        [{ pid := 4242, comm := "cpu-hog" }] []).2.1 =
      some (ActionType.KillProcess 4242 9, b) ∧ b = true := by
  obtain ⟨b, hprop, hiff, _⟩ := circuit_breaker_behavior.1
    { cpu_usage_threshold := 90, cpu_psi_threshold := 40, grace_period_secs := 15,
      require_human_approval := false, mode := "enforce",
      escalation_strategy := "kill", psi_panic_threshold := 80,
      freeze_duration_secs := 30 }
    { breach_started_at := some 0, frozen := [] } 20
    { cpu_percent := 95, psi_cpu_some_avg10 := 50 }
    [{ pid := 4242, comm := "cpu-hog" }] [] 0 { pid := 4242, comm := "cpu-hog" }
    (Or.inr rfl) (by decide) rfl (by decide) (by decide) (by decide) rfl
  exact ⟨b, hprop, hiff.mpr ⟨rfl, rfl⟩⟩

-- =========================================================================
-- C5: blame attribution (spec-side definitions and lemmas)
-- =========================================================================

/-- The `namespace/pod` key of a consumer. -/
def consumerKey (c : CpuConsumer) : String := c.nspace ++ "/" ++ c.pod

/-- First-occurrence deduplication (the key set the offender hash map
accumulates, in first-insertion order). -/
def firstDedup (l : List String) : List String :=
  l.foldl (fun a x => if x ∈ a then a else a ++ [x]) []

/-- The offender union of the specification: consumer keys, fork keys and
short-job keys, deduplicated. -/
def offenderKeys (ev : StallEvent) : List String :=
  firstDedup (ev.concurrent_consumers.map consumerKey ++
    ev.fork_counts.map Prod.fst ++ ev.short_job_counts.map Prod.fst)

/-- The attribution the specification prescribes for offender key `k`:
`cpu_share = cpu_of(o) / Σ cpu` (0 when the denominator is 0),
`fork_score = min(fork/100, 1)`, `short_score = min(short/50, 1)`,
`blame = (cpu_share + fork_score + short_score) · stall_delta_us / 10⁶`.
Written from the specification text, to be compared with the embedded
`calculate_blame_attributions`. -/
def specAttr (ev : StallEvent) (now : Nat) (k : String) : BlameAttribution :=
  let nspod := (splitOnceSlash k).getD ("", "")
  let total : ℚ := (ev.concurrent_consumers.map (fun c => c.cpu_percent)).sum
  let cpuOf : ℚ :=
    ((ev.concurrent_consumers.find?
      (fun c => c.nspace = nspod.1 ∧ c.pod = nspod.2)).map (fun c => c.cpu_percent)).getD 0
  let cpu_share : ℚ := if total > 0 then cpuOf / total else 0
  let fork_count := lookupCount ev.fork_counts k
  let short_job_count := lookupCount ev.short_job_counts k
  let blame : ℚ := (cpu_share + min ((fork_count : ℚ) / 100) 1 +
    min ((short_job_count : ℚ) / 50) 1) * ((ev.stall_delta_us : ℚ) / 1000000)
  { victim_pod := ev.victim_pod, victim_namespace := ev.victim_namespace,
    offender_pod := nspod.2, offender_namespace := nspod.1,
    blame_score := blame, stall_us := ev.stall_delta_us, timestamp := now,
    cpu_share := cpu_share, fork_count := fork_count,
    short_job_count := short_job_count }

/-- The per-offender loop body agrees with the specification's formulas. -/
theorem blameEntry_eq_specAttr (ev : StallEvent) (now : Nat) (k : String) :
    blameEntry ev now ((ev.concurrent_consumers.map (fun c => c.cpu_percent)).sum)
      k ((splitOnceSlash k).getD ("", "")) = specAttr ev now k := rfl

/-- Splitting at the first separator recovers the two halves when the
first half is separator-free. -/
theorem splitOnceChar_spec (c : Char) (xs ys : List Char) (h : c ∉ xs) :
    splitOnceChar c (xs ++ c :: ys) = some (xs, ys) := by
  induction xs with
  | nil => simp [splitOnceChar]
  | cons x xt ih =>
      have hx : ¬ (x = c) := fun he => h (he ▸ List.mem_cons_self x xt)
      simp only [List.cons_append, splitOnceChar, if_neg hx, List.append_eq]
      rw [ih (fun hm => h (List.mem_cons_of_mem x hm))]
      rfl

/-- `split_once('/')` on a well-formed `namespace/pod` key. -/
theorem splitOnceSlash_key (ns pod : String) (h : ('/' : Char) ∉ ns.toList) :
    splitOnceSlash (ns ++ "/" ++ pod) = some (ns, pod) := by
  unfold splitOnceSlash
  have hdata : (ns ++ "/" ++ pod).toList = ns.toList ++ '/' :: pod.toList := by
    show (ns ++ "/" ++ pod).data = ns.data ++ '/' :: pod.data
    rw [String.data_append, String.data_append,
      show ("/" : String).data = ['/'] from rfl, List.append_assoc]
    rfl
  rw [hdata, splitOnceChar_spec '/' ns.toList pod.toList h]
  show some (String.mk ns.data, String.mk pod.data) = some (ns, pod)
  cases ns
  cases pod
  rfl

/-- Membership in the dedup fold. -/
theorem mem_foldl_dedup (l : List String) : ∀ (acc : List String) (k : String),
    (k ∈ l.foldl (fun a x => if x ∈ a then a else a ++ [x]) acc) ↔ k ∈ acc ∨ k ∈ l := by
  induction l with
  | nil => intro acc k; simp
  | cons x xt ih =>
      intro acc k
      simp only [List.foldl_cons]
      by_cases hx : x ∈ acc
      · rw [if_pos hx, ih]
        simp only [List.mem_cons]
        constructor
        · rintro (h | h)
          · exact Or.inl h
          · exact Or.inr (Or.inr h)
        · rintro (h | h | h)
          · exact Or.inl h
          · subst h; exact Or.inl hx
          · exact Or.inr h
      · rw [if_neg hx, ih]
        simp only [List.mem_append, List.mem_cons, List.not_mem_nil, or_false]
        tauto

/-- The dedup fold produces pairwise-distinct keys. -/
theorem nodup_foldl_dedup (l : List String) : ∀ (acc : List String), acc.Nodup →
    (l.foldl (fun a x => if x ∈ a then a else a ++ [x]) acc).Nodup := by
  induction l with
  | nil => intro acc h; exact h
  | cons x xt ih =>
      intro acc h
      simp only [List.foldl_cons]
      by_cases hx : x ∈ acc
      · rw [if_pos hx]; exact ih acc h
      · rw [if_neg hx]
        refine ih _ ?_
        simp [List.nodup_append, h, hx]

/-- One hash-map insertion with the canonical split value, on a map whose
entries already carry canonical values, acts like one dedup step. -/
theorem upsert_step (acc : List String) (valOf : String → String × String) (k : String) :
    upsertOffender (acc.map (fun x => (x, valOf x))) k (valOf k) =
      (if k ∈ acc then acc else acc ++ [k]).map (fun x => (x, valOf x)) := by
  by_cases hk : k ∈ acc
  · rw [if_pos hk]
    unfold upsertOffender
    have hany : ((acc.map (fun x => (x, valOf x))).any (fun p => decide (p.1 = k))) = true := by
      rw [List.any_eq_true]
      exact ⟨(k, valOf k), List.mem_map_of_mem _ hk, by simp⟩
    rw [if_pos hany, List.map_map]
    apply List.map_congr_left
    intro x _
    by_cases hxk : x = k
    · subst hxk
      simp
    · simp [hxk]
  · rw [if_neg hk]
    unfold upsertOffender
    have hany : ((acc.map (fun x => (x, valOf x))).any (fun p => decide (p.1 = k))) = false := by
      rw [List.any_eq_false]
      rintro p hp
      obtain ⟨x, hx, rfl⟩ := List.mem_map.mp hp
      simp only [decide_eq_true_eq]
      exact fun he => hk (he ▸ hx)
    rw [if_neg (by rw [hany]; exact Bool.false_ne_true), List.map_append]
    rfl

/-- Folding canonical insertions equals mapping the canonical value over
the dedup fold of the keys. -/
theorem foldl_upsert_eq (valOf : String → String × String) (keys : List String) :
    ∀ acc : List String,
      keys.foldl (fun m k => upsertOffender m k (valOf k))
          (acc.map (fun x => (x, valOf x))) =
        (keys.foldl (fun a x => if x ∈ a then a else a ++ [x]) acc).map
          (fun x => (x, valOf x)) := by
  induction keys with
  | nil => intro acc; rfl
  | cons k kt ih =>
      intro acc
      simp only [List.foldl_cons]
      rw [upsert_step acc valOf k]
      exact ih _

/-- Under well-formed keys, the offender map is exactly the deduplicated
key union paired with each key's `namespace/pod` split. -/
theorem buildOffenders_eq (ev : StallEvent)
    (hcons : ∀ c ∈ ev.concurrent_consumers, ('/' : Char) ∉ c.nspace.toList)
    (hfork : ∀ kv ∈ ev.fork_counts, (splitOnceSlash kv.1).isSome = true)
    (hshort : ∀ kv ∈ ev.short_job_counts, (splitOnceSlash kv.1).isSome = true) :
    buildOffenders ev = (offenderKeys ev).map
      (fun k => (k, (splitOnceSlash k).getD ("", ""))) := by
  have hc1 : ev.concurrent_consumers.foldl
      (fun m c => upsertOffender m (c.nspace ++ "/" ++ c.pod) (c.nspace, c.pod)) [] =
      (ev.concurrent_consumers.map consumerKey).foldl
        (fun m k => upsertOffender m k ((splitOnceSlash k).getD ("", ""))) [] := by
    rw [List.foldl_map]
    apply List.foldl_ext
    intro m c hc
    have hs := splitOnceSlash_key c.nspace c.pod (hcons c hc)
    simp only [consumerKey, hs, Option.getD_some]
  have hstep : ∀ (counts : List (String × Nat)),
      (∀ kv ∈ counts, (splitOnceSlash kv.1).isSome = true) →
      ∀ (m0 : List (String × String × String)),
      counts.foldl (fun m kv =>
        match splitOnceSlash kv.1 with
        | some v => upsertOffender m kv.1 v
        | none => m) m0 =
      (counts.map Prod.fst).foldl
        (fun m k => upsertOffender m k ((splitOnceSlash k).getD ("", ""))) m0 := by
    intro counts hcounts m0
    rw [List.foldl_map]
    apply List.foldl_ext
    intro m kv hkv
    obtain ⟨v, hv⟩ := Option.isSome_iff_exists.mp (hcounts kv hkv)
    simp only [hv, Option.getD_some]
  show (ev.short_job_counts.foldl _
      (ev.fork_counts.foldl _
        (ev.concurrent_consumers.foldl _ []))) = _
  rw [hc1, hstep ev.fork_counts hfork, hstep ev.short_job_counts hshort]
  have e1 := foldl_upsert_eq (fun k => (splitOnceSlash k).getD ("", ""))
    (ev.concurrent_consumers.map consumerKey) []
  rw [show (([] : List (String × String × String)) =
      ([] : List String).map (fun x => (x, (splitOnceSlash x).getD ("", "")))) from rfl,
    e1, foldl_upsert_eq, foldl_upsert_eq]
  unfold offenderKeys firstDedup
  rw [List.foldl_append, List.foldl_append]

/-- Every offender key splits as `namespace/pod`. -/
theorem offenderKeys_isSome (ev : StallEvent)
    (hcons : ∀ c ∈ ev.concurrent_consumers, ('/' : Char) ∉ c.nspace.toList)
    (hfork : ∀ kv ∈ ev.fork_counts, (splitOnceSlash kv.1).isSome = true)
    (hshort : ∀ kv ∈ ev.short_job_counts, (splitOnceSlash kv.1).isSome = true) :
    ∀ k ∈ offenderKeys ev, (splitOnceSlash k).isSome = true := by
  intro k hk
  unfold offenderKeys firstDedup at hk
  rw [mem_foldl_dedup] at hk
  rcases hk with hk | hk
  · cases hk
  rcases List.mem_append.mp hk with hk | hk
  · rcases List.mem_append.mp hk with hk | hk
    · obtain ⟨c, hc, rfl⟩ := List.mem_map.mp hk
      rw [consumerKey, splitOnceSlash_key c.nspace c.pod (hcons c hc)]
      rfl
    · obtain ⟨kv, hkv, rfl⟩ := List.mem_map.mp hk
      exact hfork kv hkv
  · obtain ⟨kv, hkv, rfl⟩ := List.mem_map.mp hk
    exact hshort kv hkv

/-- Insertion keeps the list a permutation. -/
theorem insertByBlame_perm (a : BlameAttribution) (l : List BlameAttribution) :
    (insertByBlame a l).Perm (a :: l) := by
  induction l with
  | nil => exact List.Perm.refl _
  | cons b t ih =>
      unfold insertByBlame
      by_cases h : b.blame_score > a.blame_score
      · rw [if_pos h]
        exact (ih.cons b).trans (List.Perm.swap a b t)
      · rw [if_neg h]

/-- The descending sort is a permutation of its input. -/
theorem sortByBlame_perm (l : List BlameAttribution) : (sortByBlame l).Perm l := by
  induction l with
  | nil => exact List.Perm.refl _
  | cons a t ih =>
      exact (insertByBlame_perm a (sortByBlame t)).trans (ih.cons a)

/-- Insertion preserves descending order by blame score. -/
theorem insertByBlame_sorted (a : BlameAttribution) (l : List BlameAttribution)
    (h : l.Pairwise (fun x y => y.blame_score ≤ x.blame_score)) :
    (insertByBlame a l).Pairwise (fun x y => y.blame_score ≤ x.blame_score) := by
  induction l with
  | nil => simp [insertByBlame]
  | cons b t ih =>
      rcases List.pairwise_cons.mp h with ⟨hb, ht⟩
      unfold insertByBlame
      by_cases hba : b.blame_score > a.blame_score
      · rw [if_pos hba]
        refine List.Pairwise.cons ?_ (ih ht)
        intro x hx
        have hmem := (insertByBlame_perm a t).mem_iff.mp hx
        rcases List.mem_cons.mp hmem with rfl | hxt
        · exact le_of_lt hba
        · exact hb x hxt
      · rw [if_neg hba]
        refine List.Pairwise.cons ?_ h
        intro x hx
        rcases List.mem_cons.mp hx with rfl | hxt
        · exact le_of_not_lt hba
        · exact le_trans (hb x hxt) (le_of_not_lt hba)

/-- The output of the descending sort is sorted by blame score. -/
theorem sortByBlame_sorted (l : List BlameAttribution) :
    (sortByBlame l).Pairwise (fun x y => y.blame_score ≤ x.blame_score) := by
  induction l with
  | nil => simp [sortByBlame]
  | cons a t ih => exact insertByBlame_sorted a (sortByBlame t) ih

/-- A guarded `filterMap` is a `filter` followed by a `map`. -/
theorem filterMap_guard {α β : Type} (g : α → β) (q : β → Prop) [DecidablePred q]
    (l : List α) :
    l.filterMap (fun x => if q (g x) then some (g x) else none) =
      (l.filter (fun x => decide (q (g x)))).map g := by
  induction l with
  | nil => rfl
  | cons x t ih =>
      rw [List.filterMap_cons, List.filter_cons]
      by_cases h : q (g x)
      · rw [if_pos h, if_pos (by simpa using h), List.map_cons, ih]
      · rw [if_neg h, if_neg (by simpa using h), ih]

/-- `filterMap` respects pointwise agreement on members. -/
theorem filterMap_congr_mem {α β : Type} (l : List α) (f g : α → Option β)
    (h : ∀ x ∈ l, f x = g x) : l.filterMap f = l.filterMap g := by
  induction l with
  | nil => rfl
  | cons x t ih =>
      rw [List.filterMap_cons, List.filterMap_cons,
        h x (List.mem_cons_self x t), ih (fun y hy => h y (List.mem_cons_of_mem x hy))]

/-- C5.  For every stall event with well-formed keys (`namespace/pod`,
slash-free namespaces) the attribution list is exactly one entry per
member of the deduplicated union of consumer, fork and short-job keys
whose blame is positive, with the specification's formulas
(`cpu_share = cpu/Σcpu` or 0, `fork_score = min(fork/100,1)`,
`short_score = min(short/50,1)`,
`blame = (cpu_share+fork_score+short_score)·stall/10⁶`), zero-blame
entries omitted, sorted by blame descending. -/
theorem blame_attributions_correct (ev : StallEvent) (now : Nat)
    (hcons : ∀ c ∈ ev.concurrent_consumers, ('/' : Char) ∉ c.nspace.toList)
    (hfork : ∀ kv ∈ ev.fork_counts, (splitOnceSlash kv.1).isSome = true)
    (hshort : ∀ kv ∈ ev.short_job_counts, (splitOnceSlash kv.1).isSome = true) :
    (calculate_blame_attributions ev now).Pairwise
      (fun x y => y.blame_score ≤ x.blame_score) ∧
    (calculate_blame_attributions ev now).Perm
      (((offenderKeys ev).filter
        (fun k => decide ((specAttr ev now k).blame_score > 0))).map (specAttr ev now)) ∧
    (offenderKeys ev).Nodup ∧
    (∀ k, (k ∈ offenderKeys ev) ↔
      (k ∈ ev.concurrent_consumers.map consumerKey ∨
       k ∈ ev.fork_counts.map Prod.fst ∨ k ∈ ev.short_job_counts.map Prod.fst)) := by
  have hattrs : calculate_blame_attributions ev now =
      sortByBlame (((offenderKeys ev).filter
        (fun k => decide ((specAttr ev now k).blame_score > 0))).map (specAttr ev now)) := by
    unfold calculate_blame_attributions
    dsimp only
    rw [buildOffenders_eq ev hcons hfork hshort, List.filterMap_map]
    congr 1
    exact filterMap_guard (specAttr ev now) (fun a => a.blame_score > 0) (offenderKeys ev)
  refine ⟨?_, ?_, ?_, ?_⟩
  · rw [hattrs]
    exact sortByBlame_sorted _
  · rw [hattrs]
    exact sortByBlame_perm _
  · exact nodup_foldl_dedup _ [] List.nodup_nil
  · intro k
    unfold offenderKeys firstDedup
    rw [mem_foldl_dedup]
    simp only [List.not_mem_nil, false_or, List.mem_append]
    tauto

/-- The stall event of the specification's PSI scenario: victim
`default/victim`, 1 s stall, consumers `cpu-hog` (50 %) and `fork-bomb`
(10 %), 200 forks by `fork-bomb`, 100 short jobs by `short-job-pod`. -/
def psiEv : StallEvent :=
  { victim_pod := "victim", victim_namespace := "default", stall_delta_us := 1000000,
    concurrent_consumers :=
      [{ pod := "cpu-hog", nspace := "default", cpu_percent := 50 },
       { pod := "fork-bomb", nspace := "default", cpu_percent := 10 }],
    fork_counts := [("default/fork-bomb", 200)],
    short_job_counts := [("default/short-job-pod", 100)] }

/-- Witness for C5: on the scenario event, the attribution list is sorted
descending and is one entry per positive-blame member of the offender
union `[default/cpu-hog, default/fork-bomb, default/short-job-pod]`. -/
theorem blame_attributions_correct_witness :
    (calculate_blame_attributions psiEv 7).Pairwise
      (fun x y => y.blame_score ≤ x.blame_score) ∧
    (calculate_blame_attributions psiEv 7).Perm
      (((offenderKeys psiEv).filter
        (fun k => decide ((specAttr psiEv 7 k).blame_score > 0))).map (specAttr psiEv 7)) ∧
    offenderKeys psiEv =
      ["default/cpu-hog", "default/fork-bomb", "default/short-job-pod"] := by
  have h := blame_attributions_correct psiEv 7 (by decide) (by decide) (by decide)
  exact ⟨h.1, h.2.1, by decide⟩

-- =========================================================================
-- C1: sequencer consumer ordering
-- =========================================================================

/-- The poll loop never writes the ring: the mapped region is unchanged. -/
theorem pollLoop_ring (now : Nat) :
    ∀ (fuel : Nat) (c : SequencerConsumer), (pollLoop now fuel c).2.ring = c.ring := by
  intro fuel
  induction fuel with
  | zero => intro c; rfl
  | succ n ih =>
      intro c
      rw [pollLoop]
      dsimp only
      split_ifs <;> first | rfl | exact ih _

/-- Reap and violation counters never decrease across the poll loop. -/
theorem pollLoop_mono (now : Nat) :
    ∀ (fuel : Nat) (c : SequencerConsumer),
      c.stats.events_reaped ≤ (pollLoop now fuel c).2.stats.events_reaped ∧
      c.stats.ordering_violations ≤ (pollLoop now fuel c).2.stats.ordering_violations := by
  intro fuel
  induction fuel with
  | zero => intro c; exact ⟨le_refl _, le_refl _⟩
  | succ n ih =>
      intro c
      rw [pollLoop]
      dsimp only
      split_ifs <;>
        first
        | exact ⟨le_refl _, le_refl _⟩
        | · constructor
            · exact le_trans (by simp) (ih _).1
            · exact le_trans (by simp) (ih _).2

/-- Continuation lemma for a delivery step: prepending the slot event at
the cursor to a run that satisfies the specification from `cursor + 1`. -/
theorem pollLoop_cont_deliver (now n : Nat) (c c2 : SequencerConsumer)
    (hspec : ∃ cs : List Nat,
      (pollLoop now n c2).1 = cs.map (fun t => (c2.ring (t % ringSize)).event) ∧
      (∀ t ∈ cs, (c2.ring (t % ringSize)).ticket_id = t ∧
        (c2.ring (t % ringSize)).flags = 2) ∧
      ((pollLoop now n c2).2.stats.events_reaped = c2.stats.events_reaped ∧
       (pollLoop now n c2).2.stats.ordering_violations = c2.stats.ordering_violations →
        cs = List.range' c2.cursor cs.length ∧
        (pollLoop now n c2).2.cursor = c2.cursor + cs.length))
    (hring : c2.ring = c.ring) (hcur : c2.cursor = c.cursor + 1)
    (hreap : c2.stats.events_reaped = c.stats.events_reaped)
    (hviol : c.stats.ordering_violations ≤ c2.stats.ordering_violations)
    (ht : (c.ring (c.cursor % ringSize)).ticket_id = c.cursor)
    (hfl : (c.ring (c.cursor % ringSize)).flags = 2) :
    ∃ cs : List Nat,
      (c.ring (c.cursor % ringSize)).event :: (pollLoop now n c2).1 =
        cs.map (fun t => (c.ring (t % ringSize)).event) ∧
      (∀ t ∈ cs, (c.ring (t % ringSize)).ticket_id = t ∧
        (c.ring (t % ringSize)).flags = 2) ∧
      ((pollLoop now n c2).2.stats.events_reaped = c.stats.events_reaped ∧
       (pollLoop now n c2).2.stats.ordering_violations = c.stats.ordering_violations →
        cs = List.range' c.cursor cs.length ∧
        (pollLoop now n c2).2.cursor = c.cursor + cs.length) := by
  obtain ⟨cs', hmap, hcnd, himp⟩ := hspec
  rw [hring] at hmap hcnd
  refine ⟨c.cursor :: cs', ?_, ?_, ?_⟩
  · rw [List.map_cons, hmap]
  · intro t htm
    rcases List.mem_cons.mp htm with rfl | htm
    · exact ⟨ht, hfl⟩
    · exact hcnd t htm
  · intro hfin
    have hmono := pollLoop_mono now n c2
    have hr2 : (pollLoop now n c2).2.stats.events_reaped = c2.stats.events_reaped := by
      omega
    have hv2 : (pollLoop now n c2).2.stats.ordering_violations =
        c2.stats.ordering_violations := by
      omega
    obtain ⟨hcs, hc⟩ := himp ⟨hr2, hv2⟩
    constructor
    · rw [List.length_cons]
      rw [hcur] at hcs
      rw [List.range'_succ, ← hcs]
    · rw [List.length_cons, hc, hcur]
      omega

/-- Continuation lemma for a silent cursor skip (reaper or gap resync):
the continuation's deliveries stand, and the consecutive-delivery clause
is unreachable because a counted skip strictly increased the counters. -/
theorem pollLoop_cont_skip (now n : Nat) (c c2 : SequencerConsumer)
    (hspec : ∃ cs : List Nat,
      (pollLoop now n c2).1 = cs.map (fun t => (c2.ring (t % ringSize)).event) ∧
      (∀ t ∈ cs, (c2.ring (t % ringSize)).ticket_id = t ∧
        (c2.ring (t % ringSize)).flags = 2) ∧
      ((pollLoop now n c2).2.stats.events_reaped = c2.stats.events_reaped ∧
       (pollLoop now n c2).2.stats.ordering_violations = c2.stats.ordering_violations →
        cs = List.range' c2.cursor cs.length ∧
        (pollLoop now n c2).2.cursor = c2.cursor + cs.length))
    (hring : c2.ring = c.ring)
    (hmono_r : c.stats.events_reaped ≤ c2.stats.events_reaped)
    (hmono_v2 : c.stats.ordering_violations ≤ c2.stats.ordering_violations)
    (hstrict : c.stats.events_reaped + c.stats.ordering_violations <
      c2.stats.events_reaped + c2.stats.ordering_violations) :
    ∃ cs : List Nat,
      (pollLoop now n c2).1 = cs.map (fun t => (c.ring (t % ringSize)).event) ∧
      (∀ t ∈ cs, (c.ring (t % ringSize)).ticket_id = t ∧
        (c.ring (t % ringSize)).flags = 2) ∧
      ((pollLoop now n c2).2.stats.events_reaped = c.stats.events_reaped ∧
       (pollLoop now n c2).2.stats.ordering_violations = c.stats.ordering_violations →
        cs = List.range' c.cursor cs.length ∧
        (pollLoop now n c2).2.cursor = c.cursor + cs.length) := by
  obtain ⟨cs', hmap, hcnd, _⟩ := hspec
  rw [hring] at hmap hcnd
  refine ⟨cs', hmap, hcnd, ?_⟩
  intro hfin
  exfalso
  have hmono := pollLoop_mono now n c2
  have := hmono_v2
  omega

/-- The poll loop satisfies the delivery specification: every delivered
event comes from a READY slot whose stored ticket equals the position it
was read at, and when neither the reaper nor a gap resync fired, the
delivered positions are exactly `cursor, cursor+1, …` and the cursor
advanced by exactly the delivery count. -/
theorem pollLoop_spec (now : Nat) :
    ∀ (fuel : Nat) (c : SequencerConsumer),
      (∀ i, (c.ring i).flags ≠ 3) →
      ∃ cs : List Nat,
        (pollLoop now fuel c).1 = cs.map (fun t => (c.ring (t % ringSize)).event) ∧
        (∀ t ∈ cs, (c.ring (t % ringSize)).ticket_id = t ∧
          (c.ring (t % ringSize)).flags = 2) ∧
        ((pollLoop now fuel c).2.stats.events_reaped = c.stats.events_reaped ∧
         (pollLoop now fuel c).2.stats.ordering_violations = c.stats.ordering_violations →
          cs = List.range' c.cursor cs.length ∧
          (pollLoop now fuel c).2.cursor = c.cursor + cs.length) := by
  intro fuel
  induction fuel with
  | zero =>
      intro c hA
      exact ⟨[], rfl, by simp, fun _ => ⟨rfl, rfl⟩⟩
  | succ n ih =>
      intro c hA
      by_cases h2 : (c.ring (c.cursor % ringSize)).flags = 2
      · by_cases ht : (c.ring (c.cursor % ringSize)).ticket_id = c.cursor
        · rw [pollLoop]
          dsimp only
          rw [if_pos h2, if_pos ht]
          cases hvc : (c.validator.check (c.ring (c.cursor % ringSize)).ticket_id).2 with
          | true =>
              simp only [hvc]
              refine pollLoop_cont_deliver now n c _ (ih _ ?_) rfl rfl rfl ?_ ht h2
              · exact hA
              · exact le_refl _
          | false =>
              simp only [hvc]
              refine pollLoop_cont_deliver now n c _ (ih _ ?_) rfl rfl rfl ?_ ht h2
              · exact hA
              · exact Nat.le_succ _
        · by_cases hlt : (c.ring (c.cursor % ringSize)).ticket_id < c.cursor
          · rw [pollLoop]
            dsimp only
            rw [if_pos h2, if_neg ht, if_pos hlt]
            exact ⟨[], rfl, by simp, fun _ => ⟨rfl, by simp⟩⟩
          · rw [pollLoop]
            dsimp only
            rw [if_pos h2, if_neg ht, if_neg hlt]
            refine pollLoop_cont_skip now n c _ (ih _ ?_) rfl ?_ ?_ ?_
            · exact hA
            · exact le_refl _
            · exact Nat.le_succ _
            · simp
      · by_cases h1 : (c.ring (c.cursor % ringSize)).flags = 1
        · by_cases ht : (c.ring (c.cursor % ringSize)).ticket_id = c.cursor
          · by_cases hz : (c.ring (c.cursor % ringSize)).reserved_at_ns = 0
            · rw [pollLoop]
              dsimp only
              rw [if_neg h2, if_pos h1, if_pos ht, if_pos hz]
              exact ⟨[], rfl, by simp, fun _ => ⟨rfl, by simp⟩⟩
            · by_cases hto : now - (c.ring (c.cursor % ringSize)).reserved_at_ns >
                  c.reaper_timeout_ns
              · rw [pollLoop]
                dsimp only
                rw [if_neg h2, if_pos h1, if_pos ht, if_neg hz, if_pos hto]
                refine pollLoop_cont_skip now n c _ (ih _ ?_) rfl ?_ ?_ ?_
                · exact hA
                · exact Nat.le_succ _
                · exact le_refl _
                · simp
              · rw [pollLoop]
                dsimp only
                rw [if_neg h2, if_pos h1, if_pos ht, if_neg hz, if_neg hto]
                exact ⟨[], rfl, by simp, fun _ => ⟨rfl, by simp⟩⟩
          · rw [pollLoop]
            dsimp only
            rw [if_neg h2, if_pos h1, if_neg ht]
            exact ⟨[], rfl, by simp, fun _ => ⟨rfl, by simp⟩⟩
        · by_cases h0 : (c.ring (c.cursor % ringSize)).flags = 0
          · rw [pollLoop]
            dsimp only
            rw [if_neg h2, if_neg h1, if_pos h0]
            exact ⟨[], rfl, by simp, fun _ => ⟨rfl, by simp⟩⟩
          · by_cases h3 : (c.ring (c.cursor % ringSize)).flags = 3
            · exact absurd h3 (hA (c.cursor % ringSize))
            · rw [pollLoop]
              dsimp only
              rw [if_neg h2, if_neg h1, if_neg h0, if_neg h3]
              exact ⟨[], rfl, by simp, fun _ => ⟨rfl, by simp⟩⟩

/-- C1.  `poll_batch` never writes the ring; every event it delivers was
read from a READY slot whose stored `ticket_id` equals the consumer
cursor at that delivery (freshness decided purely by the ticket/cursor
comparison), the cursor advancing by one per delivery; and whenever
neither `events_reaped` nor `ordering_violations` moved during the call —
no reaper skip and no gap resync — the delivered tickets are exactly the
consecutive run `cursor, cursor+1, …` and the final cursor is the initial
cursor plus the delivery count.  The hypothesis excludes ABANDONED slots,
which neither the read-only consumer nor the eBPF producers (which write
only WRITING and READY) ever store. -/
theorem sequencer_poll_batch_ordering (c : SequencerConsumer) (now maxb : Nat)
    (hA : ∀ i, (c.ring i).flags ≠ 3) :
    (poll_batch c now maxb).2.ring = c.ring ∧
    ∃ cs : List Nat,
      (poll_batch c now maxb).1 = cs.map (fun t => (c.ring (t % ringSize)).event) ∧
      (∀ t ∈ cs, (c.ring (t % ringSize)).ticket_id = t ∧
        (c.ring (t % ringSize)).flags = 2) ∧
      ((poll_batch c now maxb).2.stats.events_reaped = c.stats.events_reaped ∧
       (poll_batch c now maxb).2.stats.ordering_violations =
         c.stats.ordering_violations →
        cs = List.range' c.cursor cs.length ∧
        (poll_batch c now maxb).2.cursor = c.cursor + cs.length) := by
  obtain ⟨cs, hmap, hcnd, himp⟩ := pollLoop_spec now maxb
    { c with stats := { c.stats with poll_cycles := c.stats.poll_cycles + 1 } } hA
  have hring := pollLoop_ring now maxb
    { c with stats := { c.stats with poll_cycles := c.stats.poll_cycles + 1 } }
  constructor
  · unfold poll_batch
    dsimp only
    split_ifs <;> exact hring
  · refine ⟨cs, ?_, hcnd, ?_⟩
    · unfold poll_batch
      dsimp only
      split_ifs <;> exact hmap
    · unfold poll_batch
      dsimp only
      split_ifs <;> exact himp

/-- A two-event test ring: READY tickets 0 and 1, empty elsewhere. -/
def ringTest : Nat → SequencedSlot := fun i =>
  if i = 0 then
    { flags := 2, ticket_id := 0, reserved_at_ns := 3, event := mkEvent 1 0 0 11 }
  else if i = 1 then
    { flags := 2, ticket_id := 1, reserved_at_ns := 4, event := mkEvent 2 0 1 22 }
  else
    { flags := 0, ticket_id := 0, reserved_at_ns := 0, event := mkEvent 0 0 0 0 }

/-- A freshly attached consumer over the test ring. -/
def consTest : SequencerConsumer :=
  { ring := ringTest, cursor := 0,
    validator := { last_ticket := none, violations := 0 },
    stats := { events_processed := 0, events_reaped := 0, events_abandoned := 0,
               poll_cycles := 0, max_batch_size := 0, ordering_violations := 0 },
    reaper_timeout_ns := 10000000 }

/-- Witness for C1: the ordering theorem applied to the concrete two-event
ring. -/
theorem sequencer_poll_batch_ordering_witness :
    (poll_batch consTest 5 4).2.ring = consTest.ring ∧
    ∃ cs : List Nat,
      (poll_batch consTest 5 4).1 =
        cs.map (fun t => (consTest.ring (t % ringSize)).event) ∧
      (∀ t ∈ cs, (consTest.ring (t % ringSize)).ticket_id = t ∧
        (consTest.ring (t % ringSize)).flags = 2) ∧
      ((poll_batch consTest 5 4).2.stats.events_reaped =
         consTest.stats.events_reaped ∧
       (poll_batch consTest 5 4).2.stats.ordering_violations =
         consTest.stats.ordering_violations →
        cs = List.range' consTest.cursor cs.length ∧
        (poll_batch consTest 5 4).2.cursor = consTest.cursor + cs.length) := by
  have hA : ∀ i, (consTest.ring i).flags ≠ 3 := by
    intro i
    show (ringTest i).flags ≠ 3
    unfold ringTest
    split_ifs <;> decide
  exact sequencer_poll_batch_ordering consTest 5 4 hA
